import Mathlib

/-!
# mongo-perf: the benchmark harness of `benchmark.cpp`

A shallow embedding of the harness (`TestSuite`, `Test<T>`, the workload
structs and `TheTestSuite`) and proofs about the traces it produces.

Conventions of the embedding.

* C++ `int` values are `Int`. The only arithmetic the harness performs on
  them is `iterations / n`, `t * (iterations / n)`, `base + i` and `%`, whose
  results stay within the magnitude of `iterations` for `0 ≤ t < n`, so no
  wrap-around is modelled. `/` is truncating division and is undefined for a
  zero divisor: `cdiv` returns `none` there.
* A service call on `conn[slot]` is a `Call`; a workload body is the list of
  calls it issues, in program order.
* The main thread of `TestSuite::run` produces a list of `Event`s. Worker
  threads produce their own call lists; `Step` and `Admissible` describe how
  the two interleave.
* C++ `double` is IEEE 754 binary64 with round-to-nearest-even (`Double`).
-/

namespace Benchmark

/-! ## BSON documents and service calls -/

/-- Value of one BSON field, as far as `benchmark.cpp` builds them -/
inductive Val
| int (v : Int)
| str (s : String)
| oid
| regex (s : String)
| obj (fields : List (String × Int))
deriving DecidableEq, Repr

/-- BSON document: the fields in the order they were streamed in -/
abbrev BSONObj := List (String × Val)

/-- Constant `db` -/
def db : String := "benchmarks"

/-- Constant `ns` -/
def ns : String := "benchmarks.collection"

/-- Constant `coll` -/
def coll : String := "collection"

/-- One call on the connection `conn[slot]` -/
inductive Call
| insert (slot : Int) (ns : String) (obj : BSONObj)
| insert_vec (slot : Int) (ns : String) (objs : List BSONObj)
| update (slot : Int) (ns : String) (query obj : BSONObj) (upsert : Bool)
| query (slot : Int) (ns : String) (query : BSONObj) (nToReturn nToSkip : Int)
| findOne (slot : Int) (ns : String) (query : BSONObj)
| ensureIndex (slot : Int) (ns : String) (keys : BSONObj)
| createCollection (slot : Int) (ns : String) (size : Int) (capped : Bool)
| dropDatabase (slot : Int) (db : String)
| getLastError (slot : Int)
deriving DecidableEq, Repr

/-- Index into `conn[]` that a call goes through -/
def Call.slot : Call → Int
| .insert s _ _ => s
| .insert_vec s _ _ => s
| .update s _ _ _ _ => s
| .query s _ _ _ _ => s
| .findOne s _ _ => s
| .ensureIndex s _ _ => s
| .createCollection s _ _ _ => s
| .dropDatabase s _ => s
| .getLastError s => s

/-- The call is one of the operations a workload body performs as work:
insert, update, query, findOne or ensureIndex -/
def Call.isServiceOp : Call → Bool
| .insert _ _ _ => true
| .insert_vec _ _ _ => true
| .update _ _ _ _ _ => true
| .query _ _ _ _ _ => true
| .findOne _ _ _ => true
| .ensureIndex _ _ _ => true
| _ => false

/-! ## Globals -/

/-- Array `thread_nums` -/
def thread_nums : List Nat := [1, 2, 4, 5, 8, 10]

/-- Constant `max_threads`, the length of `conn[]` -/
def max_threads : Int := 10

/-! ## C++ statement forms -/

/-- C++ `a / b` on `int`: truncation toward zero, undefined for `b = 0` -/
def cdiv (a b : Int) : Option Int :=
  if b = 0 then none else some (Int.tdiv a b)

/-- Loop `for (int i = 0; i < bound; i++) body(i)`: the calls of the bodies in order -/
def forLoop (bound : Int) (body : Int → List Call) : List Call :=
  (List.range bound.toNat).flatMap fun i => body (i : Int)

/-- Function `clearDB` -/
def clearDB : List Call :=
  [Call.dropDatabase 0 db, Call.getLastError 0]

/-- Modelled from the spec: `BSONObjBuilder::numStr` of the mongo client library,
which is not part of this repository; the spec keys each result by the
concurrency level as a string, that is its decimal numeral. -/
def numStr (i : Int) : String := toString i

/-! ## Workload bodies: `run(t, n)` and `reset()` of every struct

Each `run` takes the global `iterations` as its first argument. -/

/-- Method `Overhead::DoNothing::run` -/
def Overhead.DoNothing.run (_iterations _t _n : Int) : Option (List Call) :=
  some []

/-- Method `Overhead::DoNothing::reset` -/
def Overhead.DoNothing.reset : List Call := clearDB

/-- Method `Insert::Base::reset` -/
def Insert.Base.reset : List Call := clearDB

/-- Method `Insert::Empty::run` -/
def Insert.Empty.run (iterations t n : Int) : Option (List Call) := do
  let bound ← cdiv iterations n
  pure (forLoop bound fun _ => [Call.insert t ns []])

/-- Method `Insert::EmptyBatched<BatchSize>::run` -/
def Insert.EmptyBatched.run (BatchSize : Int) (iterations t n : Int) : Option (List Call) := do
  let perBatch ← cdiv iterations BatchSize
  let bound ← cdiv perBatch n
  pure (forLoop bound fun _ => [Call.insert_vec t ns (List.replicate BatchSize.toNat [])])

/-- Method `Insert::EmptyCapped::run` -/
def Insert.EmptyCapped.run (iterations t n : Int) : Option (List Call) := do
  let bound ← cdiv iterations n
  pure (forLoop bound fun _ => [Call.insert t ns []])

/-- Method `Insert::EmptyCapped::reset` -/
def Insert.EmptyCapped.reset : List Call :=
  clearDB ++ [Call.createCollection 0 ns (32 * 1024) true]

/-- Method `Insert::JustID::run` -/
def Insert.JustID.run (iterations t n : Int) : Option (List Call) := do
  let bound ← cdiv iterations n
  pure (forLoop bound fun _ => [Call.insert t ns [("_id", Val.oid)]])

/-- Method `Insert::IntID::run` -/
def Insert.IntID.run (iterations t n : Int) : Option (List Call) := do
  let base := t * (← cdiv iterations n)
  let bound ← cdiv iterations n
  pure (forLoop bound fun i => [Call.insert t ns [("_id", Val.int (base + i))]])

/-- Method `Insert::IntIDUpsert::run` -/
def Insert.IntIDUpsert.run (iterations t n : Int) : Option (List Call) := do
  let base := t * (← cdiv iterations n)
  let bound ← cdiv iterations n
  pure (forLoop bound fun i => [Call.update t ns [("_id", Val.int (base + i))] [] true])

/-- Method `Insert::JustNum::run` -/
def Insert.JustNum.run (iterations t n : Int) : Option (List Call) := do
  let base := t * (← cdiv iterations n)
  let bound ← cdiv iterations n
  pure (forLoop bound fun i => [Call.insert t ns [("x", Val.int (base + i))]])

/-- Method `Insert::JustNumIndexedBefore::run` -/
def Insert.JustNumIndexedBefore.run (iterations t n : Int) : Option (List Call) := do
  let index := [Call.ensureIndex t ns [("x", Val.int 1)]]
  let base := t * (← cdiv iterations n)
  let bound ← cdiv iterations n
  pure (index ++ forLoop bound fun i => [Call.insert t ns [("x", Val.int (base + i))]])

/-- Method `Insert::JustNumIndexedAfter::run` -/
def Insert.JustNumIndexedAfter.run (iterations t n : Int) : Option (List Call) := do
  let base := t * (← cdiv iterations n)
  let bound ← cdiv iterations n
  pure ((forLoop bound fun i => [Call.insert t ns [("x", Val.int (base + i))]])
    ++ [Call.ensureIndex t ns [("x", Val.int 1)]])

/-- Method `Insert::NumAndID::run` -/
def Insert.NumAndID.run (iterations t n : Int) : Option (List Call) := do
  let base := t * (← cdiv iterations n)
  let bound ← cdiv iterations n
  pure (forLoop bound fun i => [Call.insert t ns [("_id", Val.oid), ("x", Val.int (base + i))]])

/-- Method `Update::Base::reset` -/
def Update.Base.reset : List Call := clearDB

/-- Document `BSON("$inc" << BSON("count" << 1))` -/
def incCount : BSONObj := [("$inc", Val.obj [("count", 1)])]

/-- Method `Update::IncNoIndexUpsert::run` -/
def Update.IncNoIndexUpsert.run (iterations t n : Int) : Option (List Call) := do
  let incs ← cdiv (← cdiv iterations n) 100
  pure (forLoop 100 fun i => forLoop incs fun _ =>
    [Call.update t ns [("_id", Val.int i)] incCount true])

/-- Method `Update::IncWithIndexUpsert::reset` -/
def Update.IncWithIndexUpsert.reset : List Call :=
  clearDB ++ [Call.ensureIndex 0 ns [("count", Val.int 1)]]

/-- Method `Update::IncWithIndexUpsert::run` -/
def Update.IncWithIndexUpsert.run (iterations t n : Int) : Option (List Call) := do
  let incs ← cdiv (← cdiv iterations n) 100
  pure (forLoop 100 fun i => forLoop incs fun _ =>
    [Call.update t ns [("_id", Val.int i)] incCount true])

/-- Method `Update::IncNoIndex::reset` -/
def Update.IncNoIndex.reset : List Call :=
  clearDB ++ forLoop 100 fun i =>
    [Call.insert 0 ns [("_id", Val.int i), ("count", Val.int 0)]]

/-- Method `Update::IncNoIndex::run` -/
def Update.IncNoIndex.run (iterations t n : Int) : Option (List Call) := do
  let incs ← cdiv (← cdiv iterations n) 100
  pure (forLoop 100 fun i => forLoop incs fun _ =>
    [Call.update t ns [("_id", Val.int i)] incCount false])

/-- Method `Update::IncWithIndex::reset` -/
def Update.IncWithIndex.reset : List Call :=
  clearDB ++ [Call.ensureIndex 0 ns [("count", Val.int 1)]] ++ forLoop 100 fun i =>
    [Call.insert 0 ns [("_id", Val.int i), ("count", Val.int 0)]]

/-- Method `Update::IncWithIndex::run` -/
def Update.IncWithIndex.run (iterations t n : Int) : Option (List Call) := do
  let incs ← cdiv (← cdiv iterations n) 100
  pure (forLoop 100 fun i => forLoop incs fun _ =>
    [Call.update t ns [("_id", Val.int i)] incCount false])

/-- Method `Update::IncNoIndex_QueryOnSecondary::reset` -/
def Update.IncNoIndex_QueryOnSecondary.reset : List Call :=
  clearDB ++ [Call.ensureIndex 0 ns [("i", Val.int 1)]] ++ forLoop 100 fun i =>
    [Call.insert 0 ns [("_id", Val.int i), ("i", Val.int i), ("count", Val.int 0)]]

/-- Method `Update::IncNoIndex_QueryOnSecondary::run` -/
def Update.IncNoIndex_QueryOnSecondary.run (iterations t n : Int) : Option (List Call) := do
  let incs ← cdiv (← cdiv iterations n) 100
  pure (forLoop 100 fun i => forLoop incs fun _ =>
    [Call.update t ns [("i", Val.int i)] incCount false])

/-- Method `Update::IncWithIndex_QueryOnSecondary::reset` -/
def Update.IncWithIndex_QueryOnSecondary.reset : List Call :=
  clearDB ++ [Call.ensureIndex 0 ns [("count", Val.int 1)], Call.ensureIndex 0 ns [("i", Val.int 1)]]
    ++ forLoop 100 fun i =>
      [Call.insert 0 ns [("_id", Val.int i), ("i", Val.int i), ("count", Val.int 0)]]

/-- Method `Update::IncWithIndex_QueryOnSecondary::run` -/
def Update.IncWithIndex_QueryOnSecondary.run (iterations t n : Int) : Option (List Call) := do
  let incs ← cdiv (← cdiv iterations n) 100
  pure (forLoop 100 fun i => forLoop incs fun _ =>
    [Call.update t ns [("i", Val.int i)] incCount false])

/-- Range document `BSON(field << GTE << lo << LT << hi)` -/
def rangeDoc (field : String) (lo hi : Int) : BSONObj :=
  [(field, Val.obj [("$gte", lo), ("$lt", hi)])]

/-- Method `Queries::Empty::reset` -/
def Queries.Empty.reset (iterations : Int) : List Call :=
  clearDB ++ (forLoop iterations fun _ => [Call.insert 0 ns []]) ++ [Call.getLastError 0]

/-- Method `Queries::Empty::run`; the cursor's `itcount()` belongs to the query -/
def Queries.Empty.run (iterations t n : Int) : Option (List Call) := do
  let chunk ← cdiv iterations n
  pure [Call.query t ns [] chunk (chunk * t)]

/-- Method `Queries::HundredTableScans::reset` -/
def Queries.HundredTableScans.reset (iterations : Int) : List Call :=
  clearDB ++ (forLoop iterations fun _ => [Call.insert 0 ns []]) ++ [Call.getLastError 0]

/-- Method `Queries::HundredTableScans::run` -/
def Queries.HundredTableScans.run (_iterations t n : Int) : Option (List Call) := do
  let bound ← cdiv 100 n
  pure (forLoop bound fun i => [Call.findOne t ns [("does_not_exist", Val.int i)]])

/-- Method `Queries::IntID::reset` -/
def Queries.IntID.reset (iterations : Int) : List Call :=
  clearDB ++ (forLoop iterations fun i => [Call.insert 0 ns [("_id", Val.int i)]])
    ++ [Call.getLastError 0]

/-- Method `Queries::IntID::run` -/
def Queries.IntID.run (iterations t n : Int) : Option (List Call) := do
  let chunk ← cdiv iterations n
  pure [Call.query t ns [] chunk (chunk * t)]

/-- Method `Queries::IntIDRange::reset` -/
def Queries.IntIDRange.reset (iterations : Int) : List Call :=
  clearDB ++ (forLoop iterations fun i => [Call.insert 0 ns [("_id", Val.int i)]])
    ++ [Call.getLastError 0]

/-- Method `Queries::IntIDRange::run` -/
def Queries.IntIDRange.run (iterations t n : Int) : Option (List Call) := do
  let chunk ← cdiv iterations n
  pure [Call.query t ns (rangeDoc "_id" (chunk * t) (chunk * (t + 1))) 0 0]

/-- Method `Queries::IntIDFindOne::reset` -/
def Queries.IntIDFindOne.reset (iterations : Int) : List Call :=
  clearDB ++ (forLoop iterations fun i => [Call.insert 0 ns [("_id", Val.int i)]])
    ++ [Call.getLastError 0]

/-- Method `Queries::IntIDFindOne::run` -/
def Queries.IntIDFindOne.run (iterations t n : Int) : Option (List Call) := do
  let base := t * (← cdiv iterations n)
  let bound ← cdiv iterations n
  pure (forLoop bound fun i => [Call.findOne t ns [("_id", Val.int (base + i))]])

/-- Method `Queries::IntNonID::reset` -/
def Queries.IntNonID.reset (iterations : Int) : List Call :=
  clearDB ++ [Call.ensureIndex 0 ns [("x", Val.int 1)]]
    ++ (forLoop iterations fun i => [Call.insert 0 ns [("x", Val.int i)]])
    ++ [Call.getLastError 0]

/-- Method `Queries::IntNonID::run` -/
def Queries.IntNonID.run (iterations t n : Int) : Option (List Call) := do
  let chunk ← cdiv iterations n
  pure [Call.query t ns [] chunk (chunk * t)]

/-- Method `Queries::IntNonIDRange::reset` -/
def Queries.IntNonIDRange.reset (iterations : Int) : List Call :=
  clearDB ++ [Call.ensureIndex 0 ns [("x", Val.int 1)]]
    ++ (forLoop iterations fun i => [Call.insert 0 ns [("x", Val.int i)]])
    ++ [Call.getLastError 0]

/-- Method `Queries::IntNonIDRange::run` -/
def Queries.IntNonIDRange.run (iterations t n : Int) : Option (List Call) := do
  let chunk ← cdiv iterations n
  pure [Call.query t ns (rangeDoc "x" (chunk * t) (chunk * (t + 1))) 0 0]

/-- Method `Queries::IntNonIDFindOne::reset` -/
def Queries.IntNonIDFindOne.reset (iterations : Int) : List Call :=
  clearDB ++ [Call.ensureIndex 0 ns [("x", Val.int 1)]]
    ++ (forLoop iterations fun i => [Call.insert 0 ns [("x", Val.int i)]])
    ++ [Call.getLastError 0]

/-- Method `Queries::IntNonIDFindOne::run` -/
def Queries.IntNonIDFindOne.run (iterations t n : Int) : Option (List Call) := do
  let base := t * (← cdiv iterations n)
  let bound ← cdiv iterations n
  pure (forLoop bound fun i => [Call.findOne t ns [("x", Val.int (base + i))]])

/-- Member `nums` of `Queries::RegexPrefixFindOne`, filled by its constructor -/
def Queries.RegexPrefixFindOne.nums (j : Int) : String := "^" ++ numStr (j + 1)

/-- Method `Queries::RegexPrefixFindOne::reset` -/
def Queries.RegexPrefixFindOne.reset (iterations : Int) : List Call :=
  clearDB ++ [Call.ensureIndex 0 ns [("x", Val.int 1)]]
    ++ (forLoop iterations fun i => [Call.insert 0 ns [("x", Val.str (numStr i))]])
    ++ [Call.getLastError 0]

/-- Method `Queries::RegexPrefixFindOne::run` -/
def Queries.RegexPrefixFindOne.run (iterations t n : Int) : Option (List Call) := do
  let bound ← cdiv (← cdiv iterations n) 100
  pure (forLoop bound fun _ => forLoop 100 fun j =>
    [Call.findOne t ns [("x", Val.regex (Queries.RegexPrefixFindOne.nums j))]])

/-- The two index calls shared by the `Queries::TwoInts*` resets -/
def Queries.twoIndexes : List Call :=
  [Call.ensureIndex 0 ns [("x", Val.int 1)], Call.ensureIndex 0 ns [("y", Val.int 1)]]

/-- Method `Queries::TwoIntsBothGood::reset` -/
def Queries.TwoIntsBothGood.reset (iterations : Int) : List Call :=
  clearDB ++ Queries.twoIndexes
    ++ (forLoop iterations fun i =>
      [Call.insert 0 ns [("x", Val.int i), ("y", Val.int (iterations - i))]])
    ++ [Call.getLastError 0]

/-- Method `Queries::TwoIntsBothGood::run` -/
def Queries.TwoIntsBothGood.run (iterations t n : Int) : Option (List Call) := do
  let base := t * (← cdiv iterations n)
  let bound ← cdiv iterations n
  pure (forLoop bound fun i =>
    [Call.findOne t ns [("x", Val.int (base + i)), ("y", Val.int (iterations - (base + i)))]])

/-- Method `Queries::TwoIntsFirstGood::reset` -/
def Queries.TwoIntsFirstGood.reset (iterations : Int) : List Call :=
  clearDB ++ Queries.twoIndexes
    ++ (forLoop iterations fun i =>
      [Call.insert 0 ns [("x", Val.int i), ("y", Val.int (Int.tmod i 13))]])
    ++ [Call.getLastError 0]

/-- Method `Queries::TwoIntsFirstGood::run` -/
def Queries.TwoIntsFirstGood.run (iterations t n : Int) : Option (List Call) := do
  let base := t * (← cdiv iterations n)
  let bound ← cdiv iterations n
  pure (forLoop bound fun i =>
    [Call.findOne t ns [("x", Val.int (base + i)), ("y", Val.int (Int.tmod (base + i) 13))]])

/-- Method `Queries::TwoIntsSecondGood::reset` -/
def Queries.TwoIntsSecondGood.reset (iterations : Int) : List Call :=
  clearDB ++ Queries.twoIndexes
    ++ (forLoop iterations fun i =>
      [Call.insert 0 ns [("x", Val.int (Int.tmod i 13)), ("y", Val.int i)]])
    ++ [Call.getLastError 0]

/-- Method `Queries::TwoIntsSecondGood::run` -/
def Queries.TwoIntsSecondGood.run (iterations t n : Int) : Option (List Call) := do
  let base := t * (← cdiv iterations n)
  let bound ← cdiv iterations n
  pure (forLoop bound fun i =>
    [Call.findOne t ns [("x", Val.int (Int.tmod (base + i) 13)), ("y", Val.int (base + i))]])

/-- Method `Queries::TwoIntsBothBad::reset` -/
def Queries.TwoIntsBothBad.reset (iterations : Int) : List Call :=
  clearDB ++ Queries.twoIndexes
    ++ (forLoop iterations fun i =>
      [Call.insert 0 ns [("x", Val.int (Int.tmod i 503)), ("y", Val.int (Int.tmod i 509))]])
    ++ [Call.getLastError 0]

/-- Method `Queries::TwoIntsBothBad::run` -/
def Queries.TwoIntsBothBad.run (iterations t n : Int) : Option (List Call) := do
  let base := t * (← cdiv iterations n)
  let bound ← cdiv iterations n
  pure (forLoop bound fun i =>
    [Call.findOne t ns
      [("x", Val.int (Int.tmod (base + i) 503)), ("y", Val.int (Int.tmod (base + i) 509))]])

/-! ## `Test<T>` and `TestBase` -/

/-- The type argument `T` of `Test<T>`: one constructor per workload struct of
the file, `Namespace_Struct` for `Namespace::Struct` -/
inductive Workload
| Overhead_DoNothing
| Insert_Empty
| Insert_EmptyBatched (BatchSize : Int)
| Insert_EmptyCapped
| Insert_JustID
| Insert_IntID
| Insert_IntIDUpsert
| Insert_JustNum
| Insert_JustNumIndexedBefore
| Insert_JustNumIndexedAfter
| Insert_NumAndID
| Update_IncNoIndexUpsert
| Update_IncWithIndexUpsert
| Update_IncNoIndex
| Update_IncWithIndex
| Update_IncNoIndex_QueryOnSecondary
| Update_IncWithIndex_QueryOnSecondary
| Queries_Empty
| Queries_HundredTableScans
| Queries_IntID
| Queries_IntIDRange
| Queries_IntIDFindOne
| Queries_IntNonID
| Queries_IntNonIDRange
| Queries_IntNonIDFindOne
| Queries_RegexPrefixFindOne
| Queries_TwoIntsBothGood
| Queries_TwoIntsFirstGood
| Queries_TwoIntsSecondGood
| Queries_TwoIntsBothBad
deriving DecidableEq, Repr

/-- Call `test.run(thread, nthreads)` on the member `T test` of `Test<T>` -/
def Workload.run : Workload → (iterations t n : Int) → Option (List Call)
| .Overhead_DoNothing => Overhead.DoNothing.run
| .Insert_Empty => Insert.Empty.run
| .Insert_EmptyBatched BatchSize => Insert.EmptyBatched.run BatchSize
| .Insert_EmptyCapped => Insert.EmptyCapped.run
| .Insert_JustID => Insert.JustID.run
| .Insert_IntID => Insert.IntID.run
| .Insert_IntIDUpsert => Insert.IntIDUpsert.run
| .Insert_JustNum => Insert.JustNum.run
| .Insert_JustNumIndexedBefore => Insert.JustNumIndexedBefore.run
| .Insert_JustNumIndexedAfter => Insert.JustNumIndexedAfter.run
| .Insert_NumAndID => Insert.NumAndID.run
| .Update_IncNoIndexUpsert => Update.IncNoIndexUpsert.run
| .Update_IncWithIndexUpsert => Update.IncWithIndexUpsert.run
| .Update_IncNoIndex => Update.IncNoIndex.run
| .Update_IncWithIndex => Update.IncWithIndex.run
| .Update_IncNoIndex_QueryOnSecondary => Update.IncNoIndex_QueryOnSecondary.run
| .Update_IncWithIndex_QueryOnSecondary => Update.IncWithIndex_QueryOnSecondary.run
| .Queries_Empty => Queries.Empty.run
| .Queries_HundredTableScans => Queries.HundredTableScans.run
| .Queries_IntID => Queries.IntID.run
| .Queries_IntIDRange => Queries.IntIDRange.run
| .Queries_IntIDFindOne => Queries.IntIDFindOne.run
| .Queries_IntNonID => Queries.IntNonID.run
| .Queries_IntNonIDRange => Queries.IntNonIDRange.run
| .Queries_IntNonIDFindOne => Queries.IntNonIDFindOne.run
| .Queries_RegexPrefixFindOne => Queries.RegexPrefixFindOne.run
| .Queries_TwoIntsBothGood => Queries.TwoIntsBothGood.run
| .Queries_TwoIntsFirstGood => Queries.TwoIntsFirstGood.run
| .Queries_TwoIntsSecondGood => Queries.TwoIntsSecondGood.run
| .Queries_TwoIntsBothBad => Queries.TwoIntsBothBad.run

/-- Method `Test<T>::reset`: the call `test.reset()` -/
def Workload.reset : Workload → (iterations : Int) → List Call
| .Overhead_DoNothing, _ => Overhead.DoNothing.reset
| .Insert_Empty, _ => Insert.Base.reset
| .Insert_EmptyBatched _, _ => Insert.Base.reset
| .Insert_EmptyCapped, _ => Insert.EmptyCapped.reset
| .Insert_JustID, _ => Insert.Base.reset
| .Insert_IntID, _ => Insert.Base.reset
| .Insert_IntIDUpsert, _ => Insert.Base.reset
| .Insert_JustNum, _ => Insert.Base.reset
| .Insert_JustNumIndexedBefore, _ => Insert.Base.reset
| .Insert_JustNumIndexedAfter, _ => Insert.Base.reset
| .Insert_NumAndID, _ => Insert.Base.reset
| .Update_IncNoIndexUpsert, _ => Update.Base.reset
| .Update_IncWithIndexUpsert, _ => Update.IncWithIndexUpsert.reset
| .Update_IncNoIndex, _ => Update.IncNoIndex.reset
| .Update_IncWithIndex, _ => Update.IncWithIndex.reset
| .Update_IncNoIndex_QueryOnSecondary, _ => Update.IncNoIndex_QueryOnSecondary.reset
| .Update_IncWithIndex_QueryOnSecondary, _ => Update.IncWithIndex_QueryOnSecondary.reset
| .Queries_Empty, iterations => Queries.Empty.reset iterations
| .Queries_HundredTableScans, iterations => Queries.HundredTableScans.reset iterations
| .Queries_IntID, iterations => Queries.IntID.reset iterations
| .Queries_IntIDRange, iterations => Queries.IntIDRange.reset iterations
| .Queries_IntIDFindOne, iterations => Queries.IntIDFindOne.reset iterations
| .Queries_IntNonID, iterations => Queries.IntNonID.reset iterations
| .Queries_IntNonIDRange, iterations => Queries.IntNonIDRange.reset iterations
| .Queries_IntNonIDFindOne, iterations => Queries.IntNonIDFindOne.reset iterations
| .Queries_RegexPrefixFindOne, iterations => Queries.RegexPrefixFindOne.reset iterations
| .Queries_TwoIntsBothGood, iterations => Queries.TwoIntsBothGood.reset iterations
| .Queries_TwoIntsFirstGood, iterations => Queries.TwoIntsFirstGood.reset iterations
| .Queries_TwoIntsSecondGood, iterations => Queries.TwoIntsSecondGood.reset iterations
| .Queries_TwoIntsBothBad, iterations => Queries.TwoIntsBothBad.reset iterations

/-- Method `Test<T>::name`: the demangled name of `T` -/
def Workload.name : Workload → String
| .Overhead_DoNothing => "Overhead::DoNothing"
| .Insert_Empty => "Insert::Empty"
| .Insert_EmptyBatched BatchSize => "Insert::EmptyBatched<" ++ toString BatchSize ++ ">"
| .Insert_EmptyCapped => "Insert::EmptyCapped"
| .Insert_JustID => "Insert::JustID"
| .Insert_IntID => "Insert::IntID"
| .Insert_IntIDUpsert => "Insert::IntIDUpsert"
| .Insert_JustNum => "Insert::JustNum"
| .Insert_JustNumIndexedBefore => "Insert::JustNumIndexedBefore"
| .Insert_JustNumIndexedAfter => "Insert::JustNumIndexedAfter"
| .Insert_NumAndID => "Insert::NumAndID"
| .Update_IncNoIndexUpsert => "Update::IncNoIndexUpsert"
| .Update_IncWithIndexUpsert => "Update::IncWithIndexUpsert"
| .Update_IncNoIndex => "Update::IncNoIndex"
| .Update_IncWithIndex => "Update::IncWithIndex"
| .Update_IncNoIndex_QueryOnSecondary => "Update::IncNoIndex_QueryOnSecondary"
| .Update_IncWithIndex_QueryOnSecondary => "Update::IncWithIndex_QueryOnSecondary"
| .Queries_Empty => "Queries::Empty"
| .Queries_HundredTableScans => "Queries::HundredTableScans"
| .Queries_IntID => "Queries::IntID"
| .Queries_IntIDRange => "Queries::IntIDRange"
| .Queries_IntIDFindOne => "Queries::IntIDFindOne"
| .Queries_IntNonID => "Queries::IntNonID"
| .Queries_IntNonIDRange => "Queries::IntNonIDRange"
| .Queries_IntNonIDFindOne => "Queries::IntNonIDFindOne"
| .Queries_RegexPrefixFindOne => "Queries::RegexPrefixFindOne"
| .Queries_TwoIntsBothGood => "Queries::TwoIntsBothGood"
| .Queries_TwoIntsFirstGood => "Queries::TwoIntsFirstGood"
| .Queries_TwoIntsSecondGood => "Queries::TwoIntsSecondGood"
| .Queries_TwoIntsBothBad => "Queries::TwoIntsBothBad"

/-- Where a call of a worker thread comes from: the workload body `test.run`
or the `Test<T>::run` wrapper around it -/
inductive Origin
| body
| wrapper
deriving DecidableEq, Repr

/-- Method `Test<T>::run`: the body, then `conn[thread].getLastError()` -/
def Test.run (T : Workload) (iterations thread nthreads : Int) : Option (List (Origin × Call)) := do
  let body ← T.run iterations thread nthreads
  pure (body.map (fun c => (Origin.body, c)) ++ [(Origin.wrapper, Call.getLastError thread)])

/-! ## C++ `double`: IEEE 754 binary64, round to nearest, ties to even -/

/-- A binary64 value: NaN, an infinity, or a finite number given by its sign
and its magnitude (`fin true 0` is the negative zero) -/
inductive Double
| nan
| inf (neg : Bool)
| fin (neg : Bool) (mag : ℚ)
deriving DecidableEq

/-- Nearest integer to `x`, the even one of the two when `x` lies halfway -/
def roundHalfEven (x : ℚ) : ℤ :=
  if x - ⌊x⌋ < 1 / 2 then ⌊x⌋
  else if 1 / 2 < x - ⌊x⌋ then ⌊x⌋ + 1
  else if ⌊x⌋ % 2 = 0 then ⌊x⌋ else ⌊x⌋ + 1

/-- Binary64 rounding of the exact magnitude `x ≥ 0` with sign `neg`: 53
significant bits, exponent at least `-1022` (below that the spacing stays
`2 ^ (-1074)`), overflow to infinity from `2 ^ 1024` on -/
def Double.round (neg : Bool) (x : ℚ) : Double :=
  if x = 0 then Double.fin neg 0
  else if (2 : ℚ) ^ (1024 : ℤ) ≤
      (roundHalfEven (x / (2 : ℚ) ^ (max (Int.log 2 x) (-1022) - 52)) : ℚ)
        * (2 : ℚ) ^ (max (Int.log 2 x) (-1022) - 52) then
    Double.inf neg
  else
    Double.fin neg ((roundHalfEven (x / (2 : ℚ) ^ (max (Int.log 2 x) (-1022) - 52)) : ℚ)
      * (2 : ℚ) ^ (max (Int.log 2 x) (-1022) - 52))

/-- Conversion of an integer (`int`, or the 64-bit tick count of
`total_microseconds()`) to `double` -/
def Double.ofInt (i : Int) : Double :=
  Double.round (decide (i < 0)) ((|i| : Int) : ℚ)

/-- Operator `/` on `double` -/
def Double.div : Double → Double → Double
| .nan, _ => .nan
| _, .nan => .nan
| .inf _, .inf _ => .nan
| .inf s, .fin t _ => .inf (xor s t)
| .fin s _, .inf t => .fin (xor s t) 0
| .fin s a, .fin t b =>
    if b = 0 then (if a = 0 then .nan else .inf (xor s t))
    else Double.round (xor s t) (a / b)

/-- Literal `1000000.0` -/
def million : Double := Double.fin false 1000000

/-- Literal `1.0` -/
def Double.one : Double := Double.fin false 1

/-! ## The report -/

/-- Sub-document stored under one concurrency level: the fields `time`,
`ops_per_sec` and `speedup`. `speedup` is `none` when the variable
`one_micros` it is computed from was read before any assignment, so that its
value is indeterminate. -/
structure Measurement where
  time : Double
  ops_per_sec : Double
  speedup : Option Double
deriving DecidableEq

/-- Document `out` printed for one workload: the fields `name` and `results`,
the latter in the order of the `append` calls -/
structure Report where
  name : String
  results : List (String × Measurement)
deriving DecidableEq

/-! ## The main thread of `TestSuite::run` -/

/-- What the main thread does, in program order. `test` is the position of
the `TestBase*` in `tests`; `nthreads` is the value of the loop variable of
the enclosing `BOOST_FOREACH`. -/
inductive Event
| banner (test : Nat) (name : String)
| reset (test nthreads : Nat) (calls : List Call)
| start_time (test nthreads : Nat) (micros : Int)
| launch (test : Nat) (thread total : Int)
| join (test : Nat) (thread total : Int)
| end_time (test nthreads : Nat) (micros : Int)
| report (test : Nat) (doc : Report)
deriving DecidableEq

/-- Method `TestSuite::launch_subthreads(remaining, test, total)`: construct
the thread running `TestBase::run(test, total - remaining, total)`, recurse,
join the thread. `remaining` counts down to the `!remaining` exit, so it is a
natural number here; `total` keeps its `-1` default marker. -/
def launch_subthreads : (remaining : Nat) → (test : Nat) → (total : Int) → List Event
| 0, _, _ => []
| remaining + 1, test, total =>
    Event.launch test
        ((if total = -1 then ((remaining + 1 : Nat) : Int) else total) - ((remaining + 1 : Nat) : Int))
        (if total = -1 then ((remaining + 1 : Nat) : Int) else total)
      :: launch_subthreads remaining test (if total = -1 then ((remaining + 1 : Nat) : Int) else total)
      ++ [Event.join test
        ((if total = -1 then ((remaining + 1 : Nat) : Int) else total) - ((remaining + 1 : Nat) : Int))
        (if total = -1 then ((remaining + 1 : Nat) : Int) else total)]

/-- Elapsed time in seconds between two readings of the microsecond clock:
`(end-start).total_microseconds() / 1000000.0`. The difference of the two
readings is taken exactly; it fits the 64-bit tick count for all instants a
`ptime` can hold. -/
def elapsed (start end_ : Int) : Double :=
  Double.div (Double.ofInt (end_ - start)) million

/-- One pass through the body of the `BOOST_FOREACH` loop of `TestSuite::run`
as far as the main thread acts: `test->reset()`, the start timestamp,
`launch_subthreads(nthreads, test)`, the end timestamp -/
def timedRun (test : Nat) (T : Workload) (iterations : Int) (nthreads : Nat)
    (start end_ : Int) : List Event :=
  Event.reset test nthreads (T.reset iterations)
    :: Event.start_time test nthreads start
    :: launch_subthreads nthreads test (-1)
    ++ [Event.end_time test nthreads end_]

/-- The `BOOST_FOREACH(int nthreads, thread_nums)` loop of `TestSuite::run` for
the test at position `test`, over the remaining levels. `clock k` is the
`k`-th reading of `microsec_clock::universal_time()` of the process in
microseconds, `k` the number of readings made so far, `one_micros` the
variable of that name (`none` while unassigned). Returns the events, the
fields appended to `results`, and the number of clock readings made. -/
def runLevels (test : Nat) (T : Workload) (iterations : Int) (clock : Nat → Int) :
    List Nat → Nat → Option Double → List Event × List (String × Measurement) × Nat
| [], k, _ => ([], [], k)
| nthreads :: rest, k, one_micros =>
    let micros := elapsed (clock k) (clock (k + 1))
    let one_micros := if nthreads = 1 then some micros else one_micros
    let r := runLevels test T iterations clock rest (k + 2) one_micros
    (timedRun test T iterations nthreads (clock k) (clock (k + 1)) ++ r.1,
      (numStr nthreads,
        Measurement.mk micros (Double.div (Double.ofInt iterations) micros)
          (one_micros.map fun one => Double.div one micros))
        :: r.2.1,
      r.2.2)

/-- Struct `TestSuite`: the vector `tests` -/
structure TestSuite where
  tests : List Workload
deriving DecidableEq

/-- Method `TestSuite::add<T>` -/
def TestSuite.add (s : TestSuite) (T : Workload) : TestSuite :=
  ⟨s.tests ++ [T]⟩

/-- The outer loop of `TestSuite::run` from the test at position `test` on,
after `k` clock readings -/
def runTests (iterations : Int) (clock : Nat → Int) : List Workload → Nat → Nat → List Event
| [], _, _ => []
| T :: rest, test, k =>
    Event.banner test T.name
      :: (runLevels test T iterations clock thread_nums k none).1
      ++ Event.report test
          ⟨T.name, (runLevels test T iterations clock thread_nums k none).2.1⟩
      :: runTests iterations clock rest (test + 1)
          (runLevels test T iterations clock thread_nums k none).2.2

/-- Method `TestSuite::run` -/
def TestSuite.run (s : TestSuite) (iterations : Int) (clock : Nat → Int) : List Event :=
  runTests iterations clock s.tests 0 0

/-- Constructor of `TheTestSuite`: the `add<T>()` calls that are not commented out -/
def TheTestSuite : TestSuite :=
  ((((((((((((((((((TestSuite.mk []
    ).add .Insert_Empty
    ).add (.Insert_EmptyBatched 2)
    ).add (.Insert_EmptyBatched 10)
    ).add .Insert_IntID
    ).add .Insert_IntIDUpsert
    ).add .Insert_JustNumIndexedBefore
    ).add .Insert_JustNumIndexedAfter
    ).add .Update_IncNoIndexUpsert
    ).add .Update_IncWithIndexUpsert
    ).add .Update_IncNoIndex
    ).add .Update_IncWithIndex
    ).add .Update_IncNoIndex_QueryOnSecondary
    ).add .Update_IncWithIndex_QueryOnSecondary
    ).add .Queries_HundredTableScans
    ).add .Queries_IntIDRange
    ).add .Queries_IntIDFindOne
    ).add .Queries_IntNonIDRange
    ).add .Queries_IntNonIDFindOne

/-! ## Observers of a trace -/

/-- Thread index and total of a `launch` event -/
def Event.launched : Event → Option (Int × Int)
| .launch _ thread total => some (thread, total)
| _ => none

/-- Thread index and total of a `join` event -/
def Event.joined : Event → Option (Int × Int)
| .join _ thread total => some (thread, total)
| _ => none

/-- The document of a `report` event -/
def Event.reported : Event → Option Report
| .report _ doc => some doc
| _ => none

/-- Position in `tests` of the test an event belongs to -/
def Event.test : Event → Nat
| .banner test _ => test
| .reset test _ _ => test
| .start_time test _ _ => test
| .launch test _ _ => test
| .join test _ _ => test
| .end_time test _ _ => test
| .report test _ => test

/-- The timed level an event belongs to: test position and number of
threads; `none` for the banner and the report, which belong to no level -/
def Event.level : Event → Option (Nat × Int)
| .banner _ _ => none
| .reset test nthreads _ => some (test, nthreads)
| .start_time test nthreads _ => some (test, nthreads)
| .launch test _ total => some (test, total)
| .join test _ total => some (test, total)
| .end_time test nthreads _ => some (test, nthreads)
| .report _ _ => none

/-- The event is a `reset` -/
def Event.isReset : Event → Bool
| .reset _ _ _ => true
| _ => false

/-- The event is a `report` -/
def Event.isReport : Event → Bool
| .report _ _ => true
| _ => false

/-- The documents written to standard output, in order -/
def reports (trace : List Event) : List Report :=
  trace.filterMap Event.reported

/-! ## Worker threads: how their calls interleave with the main thread -/

/-- One step of the process as an outside observer sees it: a step of the
main thread, or a call issued by the worker thread that was constructed as
`TestBase::run(test, thread, total)` -/
inductive Step
| main (e : Event)
| worker (test : Nat) (thread total : Int) (origin : Origin) (call : Call)
deriving DecidableEq

/-- The main thread's event, if the step is one -/
def Step.mainEvent : Step → Option Event
| .main e => some e
| .worker _ _ _ _ _ => none

/-- The call, if the step belongs to the worker `TestBase::run(test, thread, total)` -/
def Step.workerCall (test : Nat) (thread total : Int) : Step → Option (Origin × Call)
| .main _ => none
| .worker test1 thread1 total1 origin call =>
    if test1 = test ∧ thread1 = thread ∧ total1 = total then some (origin, call) else none

/-- The step is a call that a worker issues outside the workload body, that
is from the `Test<T>::run` wrapper -/
def Step.isWrapper : Step → Bool
| .worker _ _ _ .wrapper _ => true
| _ => false

/-- For a `launch` event: the launched worker runs `Test<T>::run(thread, total)`
to completion, and the calls of that worker in `g` are the calls of that run
in program order -/
def workerDone (T : Workload) (iterations : Int) (g : List Step) : Event → Prop
| .launch test thread total =>
    Test.run T iterations thread total = some (g.filterMap (Step.workerCall test thread total))
| _ => True

/-- For a worker's call at position `i` of `g`: the thread was constructed
before it and is joined after it -/
def inOrder (g : List Step) (i : Nat) : Step → Prop
| .main _ => True
| .worker test thread total _ _ =>
    Step.main (Event.launch test thread total) ∈ g.take i
      ∧ Step.main (Event.join test thread total) ∈ g.drop (i + 1)

/-- The interleavings `g` that `boost::thread` allows for a main thread that
produces `main` while its workers run workload `T`: the main thread's steps
are `main` in order; every launched worker runs to completion; a worker's
calls lie between the construction of its thread and the return of its
`join()`. -/
def Admissible (T : Workload) (iterations : Int) (main : List Event) (g : List Step) : Prop :=
  g.filterMap Step.mainEvent = main
    ∧ (∀ e ∈ main, workerDone T iterations g e)
    ∧ (∀ i s, g[i]? = some s → inOrder g i s)

/-- A sample interleaving of level 2 of `Insert::Empty` with `iterations = 0`
at test position 0, both clock readings 0: the two workers are launched, each
issues the wrapper's `getLastError` (worker 1 first), then both are joined -/
def sampleLevel2 : List Step :=
  [Step.main (Event.reset 0 2 (Workload.Insert_Empty.reset 0)),
    Step.main (Event.start_time 0 2 0),
    Step.main (Event.launch 0 0 2),
    Step.main (Event.launch 0 1 2),
    Step.worker 0 1 2 Origin.wrapper (Call.getLastError 1),
    Step.worker 0 0 2 Origin.wrapper (Call.getLastError 0),
    Step.main (Event.join 0 1 2),
    Step.main (Event.join 0 0 2),
    Step.main (Event.end_time 0 2 0)]

/-! ## The `_id` values that calls name -/

/-- Whether a document with `_id` equal to `x` agrees with the `_id` field of
`doc`: `doc` holds the integer `_id` `x` itself, or `doc` is a query whose
`_id` field is the range `$gte lo`, `$lt hi` with `lo ≤ x < hi` -/
def idMatches (doc : BSONObj) (x : Int) : Bool :=
  match doc.lookup "_id" with
  | some (Val.int v) => decide (x = v)
  | some (Val.obj fields) =>
      match fields.lookup "$gte", fields.lookup "$lt" with
      | some lo, some hi => decide (lo ≤ x) && decide (x < hi)
      | _, _ => false
  | _ => false

/-- The call inserts a document whose `_id` is `x` -/
def Call.insertsId (x : Int) : Call → Bool
| .insert _ _ doc => idMatches doc x
| _ => false

/-- The call names the `_id` `x`: it inserts a document with that `_id`, or
it is a `findOne` or a `query` whose `_id` condition `x` meets -/
def Call.namesId (x : Int) : Call → Bool
| .insert _ _ doc => idMatches doc x
| .findOne _ _ q => idMatches q x
| .query _ _ q _ _ => idMatches q x
| _ => false

/-- Worker `t` of `n`, running the body of workload `T`, names the `_id` `x`
in one of its calls -/
def usesId (T : Workload) (iterations t n x : Int) : Bool :=
  match T.run iterations t n with
  | some calls => calls.any (Call.namesId x)
  | none => false

/-- The `reset()` of workload `T` inserts a document whose `_id` is `x` -/
def resetInsertsId (T : Workload) (iterations x : Int) : Bool :=
  (T.reset iterations).any (Call.insertsId x)

/-! # Proofs -/

/-! ## Shape of the launch and join trace -/

theorem launch_subthreads_total (r test : Nat) (total : Int) (h : total ≠ -1) :
    launch_subthreads r test total
      = (List.range r).map (fun (i : Nat) => Event.launch test (total - (r : Int) + (i : Int)) total)
        ++ ((List.range r).map
            (fun (i : Nat) => Event.join test (total - (r : Int) + (i : Int)) total)).reverse := by
  induction r with
  | zero => simp [launch_subthreads]
  | succ r ih =>
    have e1 : ∀ i : Nat, total - ((r : Int) + 1) + ((i : Int) + 1)
        = total - (r : Int) + (i : Int) := by
      intro i; ring
    rw [launch_subthreads, if_neg h, ih, List.range_succ_eq_map]
    simp [List.map_map, Function.comp_def, e1]

theorem launch_subthreads_default (N test : Nat) :
    launch_subthreads N test (-1)
      = (List.range N).map (fun (i : Nat) => Event.launch test (i : Int) (N : Int))
        ++ ((List.range N).map (fun (i : Nat) => Event.join test (i : Int) (N : Int))).reverse := by
  cases N with
  | zero => simp [launch_subthreads]
  | succ r =>
    have hne : ((r + 1 : Nat) : Int) ≠ -1 := by omega
    have h1 : launch_subthreads (r + 1) test (-1)
        = launch_subthreads (r + 1) test ((r + 1 : Nat) : Int) := by
      simp only [launch_subthreads, if_neg hne, if_true]
    rw [h1, launch_subthreads_total (r + 1) test _ hne]
    simp
theorem filterMap_const_none {α β : Type} (l : List α) :
    l.filterMap (fun _ => (none : Option β)) = [] := by
  induction l with
  | nil => rfl
  | cons a l ih => simp [List.filterMap_cons, ih]

theorem filterMap_some_fun {α β : Type} (f : α → β) (l : List α) :
    l.filterMap (fun a => some (f a)) = l.map f := by
  induction l with
  | nil => rfl
  | cons a l ih => simp [List.filterMap_cons, ih]
theorem launched_default (N test : Nat) :
    (launch_subthreads N test (-1)).filterMap Event.launched
      = (List.range N).map (fun (i : Nat) => ((i : Int), (N : Int))) := by
  rw [launch_subthreads_default]
  simp [List.filterMap_append, List.filterMap_map, List.filterMap_reverse, Function.comp_def,
    Event.launched, filterMap_const_none, filterMap_some_fun]

theorem joined_default (N test : Nat) :
    (launch_subthreads N test (-1)).filterMap Event.joined
      = ((List.range N).map (fun (i : Nat) => ((i : Int), (N : Int)))).reverse := by
  rw [launch_subthreads_default]
  simp [List.filterMap_append, List.filterMap_map, List.filterMap_reverse, Function.comp_def,
    Event.joined, filterMap_const_none, filterMap_some_fun]

theorem launch_subthreads_nodup (N test : Nat) : (launch_subthreads N test (-1)).Nodup := by
  rw [launch_subthreads_default, List.nodup_append]
  refine ⟨?_, ?_, ?_⟩
  · exact List.Nodup.map (fun a b h => by simpa using h) (List.nodup_range N)
  · rw [List.nodup_reverse]
    exact List.Nodup.map (fun a b h => by simpa using h) (List.nodup_range N)
  · intro e h1 h2
    simp only [List.mem_map, List.mem_reverse] at h1 h2
    obtain ⟨i, -, rfl⟩ := h1
    obtain ⟨j, -, hj⟩ := h2
    cases hj

/-- C1: for every concurrency level `N`, `launch_subthreads(N, test)` with the
default `total = -1` constructs exactly `N` worker threads, and the calls they
run are `TestBase::run(i, N)` for `i = 0, 1, ..., N-1`, each index once, each
with `total = N`; for `N = 0` no worker is started. -/
theorem C1_launch_subthreads_starts_exactly_N (N test : Nat) :
    (launch_subthreads N test (-1)).filterMap Event.launched
        = (List.range N).map (fun (i : Nat) => ((i : Int), (N : Int)))
      ∧ ((launch_subthreads N test (-1)).filterMap Event.launched).length = N
      ∧ (launch_subthreads 0 test (-1)).filterMap Event.launched = [] := by
  refine ⟨launched_default N test, ?_, ?_⟩
  · rw [launched_default]; simp
  · rw [launched_default]; simp

/-! ## Where the events of one timed level sit in the trace -/

theorem launch_subthreads_mem (n test : Nat) (e : Event) (h : e ∈ launch_subthreads n test (-1)) :
    ∃ i : Nat, i < n ∧ (e = Event.launch test (i : Int) (n : Int)
      ∨ e = Event.join test (i : Int) (n : Int)) := by
  rw [launch_subthreads_default] at h
  simp only [List.mem_append, List.mem_map, List.mem_reverse, List.mem_range] at h
  rcases h with ⟨i, hi, rfl⟩ | ⟨i, hi, rfl⟩
  · exact ⟨i, hi, Or.inl rfl⟩
  · exact ⟨i, hi, Or.inr rfl⟩

theorem launch_subthreads_level (n test : Nat) (e : Event)
    (h : e ∈ launch_subthreads n test (-1)) :
    e.level = some (test, (n : Int)) ∧ e.isReset = false ∧ e.test = test := by
  obtain ⟨i, -, rfl | rfl⟩ := launch_subthreads_mem n test e h <;>
    simp [Event.level, Event.isReset, Event.test]

theorem Event.level_fst (e : Event) (p : Nat × Int) (h : e.level = some p) : p.1 = e.test := by
  cases e <;> simp [Event.level, Event.test] at h ⊢ <;> rw [← h]

theorem runLevels_mem (test : Nat) (T : Workload) (iterations : Int) (clock : Nat → Int)
    (levels : List Nat) (k : Nat) (one : Option Double) (e : Event)
    (h : e ∈ (runLevels test T iterations clock levels k one).1) :
    ∃ m ∈ levels, e.level = some (test, (m : Int)) := by
  induction levels generalizing k one with
  | nil => simp [runLevels] at h
  | cons n rest ih =>
    simp only [runLevels, timedRun, List.mem_cons, List.mem_append, List.not_mem_nil,
      or_false] at h
    rcases h with ((rfl | rfl | h) | rfl) | h
    · exact ⟨n, List.mem_cons_self _ _, rfl⟩
    · exact ⟨n, List.mem_cons_self _ _, rfl⟩
    · exact ⟨n, List.mem_cons_self _ _, (launch_subthreads_level n test e h).1⟩
    · exact ⟨n, List.mem_cons_self _ _, rfl⟩
    · obtain ⟨m, hm, hl⟩ := ih _ _ h
      exact ⟨m, List.mem_cons_of_mem _ hm, hl⟩

theorem runLevels_readings (test : Nat) (T : Workload) (iterations : Int) (clock : Nat → Int)
    (levels : List Nat) (k : Nat) (one : Option Double) :
    (runLevels test T iterations clock levels k one).2.2 = k + 2 * levels.length := by
  induction levels generalizing k one with
  | nil => simp [runLevels]
  | cons n rest ih =>
    simp only [runLevels, List.length_cons]
    rw [ih]; omega

theorem runLevels_segment (test : Nat) (T : Workload) (iterations : Int) (clock : Nat → Int)
    (levels : List Nat) (hnd : levels.Nodup) (n : Nat) (hn : n ∈ levels) (k : Nat)
    (one : Option Double) :
    ∃ pre post k0, (runLevels test T iterations clock levels k one).1
        = pre ++ (Event.reset test n (T.reset iterations) :: Event.start_time test n (clock k0)
            :: launch_subthreads n test (-1) ++ [Event.end_time test n (clock (k0 + 1))]) ++ post
      ∧ ∀ e ∈ pre ++ post, e.level ≠ some (test, (n : Int)) := by
  induction levels generalizing k one with
  | nil => simp at hn
  | cons m rest ih =>
    rw [List.nodup_cons] at hnd
    rcases List.mem_cons.mp hn with rfl | hn'
    · refine ⟨[], (runLevels test T iterations clock rest (k + 2)
        (if n = 1 then some (elapsed (clock k) (clock (k + 1))) else one)).1, k, ?_, ?_⟩
      · simp [runLevels, timedRun]
      · intro e he
        simp only [List.nil_append] at he
        obtain ⟨m, hm, hl⟩ := runLevels_mem _ _ _ _ _ _ _ e he
        rw [hl]
        intro hc
        have : m = n := by simpa using hc
        exact hnd.1 (this ▸ hm)
    · obtain ⟨pre, post, k0, heq, hlv⟩ := ih hnd.2 hn' (k + 2)
        (if m = 1 then some (elapsed (clock k) (clock (k + 1))) else one)
      refine ⟨Event.reset test m (T.reset iterations) :: Event.start_time test m (clock k)
          :: launch_subthreads m test (-1) ++ Event.end_time test m (clock (k + 1)) :: pre,
        post, k0, ?_, ?_⟩
      · simp only [runLevels, timedRun]
        rw [heq]; simp
      · have hmn : m ≠ n := fun h => hnd.1 (h ▸ hn')
        intro e he
        simp only [List.mem_append, List.mem_cons] at he hlv
        rcases he with (((rfl | rfl | he) | rfl | he)) | he
        · simpa [Event.level] using hmn
        · simpa [Event.level] using hmn
        · rw [(launch_subthreads_level m test e he).1]; simpa using hmn
        · simpa [Event.level] using hmn
        · exact hlv e (Or.inl he)
        · exact hlv e (Or.inr he)

theorem thread_nums_nodup : thread_nums.Nodup := by decide

theorem runLevels_test (test : Nat) (T : Workload) (iterations : Int) (clock : Nat → Int)
    (levels : List Nat) (k : Nat) (one : Option Double) (e : Event)
    (h : e ∈ (runLevels test T iterations clock levels k one).1) : e.test = test := by
  obtain ⟨m, -, hl⟩ := runLevels_mem _ _ _ _ _ _ _ e h
  exact (Event.level_fst e _ hl).symm

theorem runTests_test (iterations : Int) (clock : Nat → Int) (tests : List Workload)
    (test0 k : Nat) (e : Event) (h : e ∈ runTests iterations clock tests test0 k) :
    test0 ≤ e.test ∧ e.test < test0 + tests.length := by
  induction tests generalizing test0 k with
  | nil => simp [runTests] at h
  | cons T rest ih =>
    simp only [runTests, List.mem_cons, List.mem_append, List.length_cons] at h ⊢
    rcases h with (rfl | h) | rfl | h
    · simp [Event.test]
    · rw [runLevels_test _ _ _ _ _ _ _ e h]; omega
    · simp [Event.test]
    · have := ih _ _ h
      omega

theorem runTests_segment (iterations : Int) (clock : Nat → Int) (tests : List Workload)
    (test0 k i : Nat) (T : Workload) (hT : tests[i]? = some T) (n : Nat)
    (hn : n ∈ thread_nums) :
    ∃ pre post k0, runTests iterations clock tests test0 k
        = pre ++ (Event.reset (test0 + i) n (T.reset iterations)
            :: Event.start_time (test0 + i) n (clock k0)
            :: launch_subthreads n (test0 + i) (-1)
            ++ [Event.end_time (test0 + i) n (clock (k0 + 1))]) ++ post
      ∧ ∀ e ∈ pre ++ post, e.level ≠ some (test0 + i, (n : Int)) := by
  induction tests generalizing test0 k i with
  | nil => simp at hT
  | cons T0 rest ih =>
    cases i with
    | zero =>
      have hTT : T0 = T := by simpa using hT
      subst hTT
      obtain ⟨pre, post, k0, heq, hlv⟩ :=
        runLevels_segment test0 T0 iterations clock thread_nums thread_nums_nodup n hn k none
      refine ⟨Event.banner test0 T0.name :: pre,
        post ++ Event.report test0
            ⟨T0.name, (runLevels test0 T0 iterations clock thread_nums k none).2.1⟩
          :: runTests iterations clock rest (test0 + 1)
              (runLevels test0 T0 iterations clock thread_nums k none).2.2, k0, ?_, ?_⟩
      · simp only [runTests, Nat.add_zero]
        rw [heq]; simp
      · intro e he
        simp only [List.mem_append, List.mem_cons, Nat.add_zero] at he hlv ⊢
        rcases he with (rfl | he) | he | rfl | he
        · simp [Event.level]
        · exact hlv e (Or.inl he)
        · exact hlv e (Or.inr he)
        · simp [Event.level]
        · intro hc
          have h1 := Event.level_fst e _ hc
          have h2 := (runTests_test _ _ _ _ _ e he).1
          simp only at h1
          omega
    | succ j =>
      have hT' : rest[j]? = some T := by simpa using hT
      obtain ⟨pre, post, k0, heq, hlv⟩ := ih (test0 + 1)
        (runLevels test0 T0 iterations clock thread_nums k none).2.2 j hT'
      have hidx : test0 + 1 + j = test0 + (j + 1) := by omega
      rw [hidx] at heq hlv
      refine ⟨Event.banner test0 T0.name
          :: (runLevels test0 T0 iterations clock thread_nums k none).1
          ++ Event.report test0
            ⟨T0.name, (runLevels test0 T0 iterations clock thread_nums k none).2.1⟩ :: pre,
        post, k0, ?_, ?_⟩
      · simp only [runTests]
        rw [heq]; simp
      · intro e he
        simp only [List.mem_append, List.mem_cons] at he hlv
        rcases he with ((rfl | he) | rfl | he) | he
        · simp [Event.level]
        · intro hc
          have h1 := Event.level_fst e _ hc
          have h2 := runLevels_test _ _ _ _ _ _ _ e he
          simp only at h1
          omega
        · simp [Event.level]
        · exact hlv e (Or.inl he)
        · exact hlv e (Or.inr he)

theorem run_segment (s : TestSuite) (iterations : Int) (clock : Nat → Int)
    (i : Nat) (T : Workload) (hT : s.tests[i]? = some T) (n : Nat) (hn : n ∈ thread_nums) :
    ∃ pre post k0, s.run iterations clock
        = pre ++ (Event.reset i n (T.reset iterations)
            :: Event.start_time i n (clock k0)
            :: launch_subthreads n i (-1)
            ++ [Event.end_time i n (clock (k0 + 1))]) ++ post
      ∧ ∀ e ∈ pre ++ post, e.level ≠ some (i, (n : Int)) := by
  have := runTests_segment iterations clock s.tests 0 0 i T hT n hn
  simpa [TestSuite.run] using this

/-- C2: in the trace of one `launch_subthreads(N, test)` call, for every
`N ≥ 0`, the workers `0, ..., N-1` are launched in order and then joined in
reverse order, no event occurs twice, so every launched worker is joined
exactly once and there are `N` joins for `N` launches; and in
`TestSuite::run` all launches and joins of a level lie before that level's
end timestamp, none after it. -/
theorem C2_every_launched_worker_is_joined (N test : Nat) :
    launch_subthreads N test (-1)
        = (List.range N).map (fun (i : Nat) => Event.launch test (i : Int) (N : Int))
          ++ ((List.range N).map (fun (i : Nat) => Event.join test (i : Int) (N : Int))).reverse
      ∧ (launch_subthreads N test (-1)).Nodup
      ∧ (launch_subthreads N test (-1)).filterMap Event.joined
          = ((launch_subthreads N test (-1)).filterMap Event.launched).reverse
      ∧ ((launch_subthreads N test (-1)).filterMap Event.joined).length = N
      ∧ ((launch_subthreads N test (-1)).filterMap Event.launched).length = N
      ∧ ∀ (s : TestSuite) (iterations : Int) (clock : Nat → Int) (i : Nat) (T : Workload),
          s.tests[i]? = some T → N ∈ thread_nums →
          ∃ pre post k0, s.run iterations clock
              = pre ++ (Event.reset i N (T.reset iterations)
                  :: Event.start_time i N (clock k0)
                  :: launch_subthreads N i (-1)
                  ++ [Event.end_time i N (clock (k0 + 1))]) ++ post
            ∧ ∀ e ∈ pre ++ post, e.level ≠ some (i, (N : Int)) := by
  refine ⟨launch_subthreads_default N test, launch_subthreads_nodup N test, ?_, ?_, ?_, ?_⟩
  · rw [joined_default, launched_default]
  · rw [joined_default]; simp
  · rw [launched_default]; simp
  · intro s iterations clock i T hT hN
    exact run_segment s iterations clock i T hT N hN

/-- C2 at a concrete input: level 2 of a suite with one registered workload -/
theorem C2_every_launched_worker_is_joined_witness :
    ∃ pre post k0, (TestSuite.mk [Workload.Insert_Empty]).run 5 (fun (k : Nat) => (k : Int))
        = pre ++ (Event.reset 0 2 (Workload.Insert_Empty.reset 5)
            :: Event.start_time 0 2 ((fun (k : Nat) => (k : Int)) k0)
            :: launch_subthreads 2 0 (-1)
            ++ [Event.end_time 0 2 ((fun (k : Nat) => (k : Int)) (k0 + 1))]) ++ post
      ∧ ∀ e ∈ pre ++ post, e.level ≠ some (0, ((2 : Nat) : Int)) :=
  (C2_every_launched_worker_is_joined 2 0).2.2.2.2.2 (TestSuite.mk [Workload.Insert_Empty]) 5
    (fun (k : Nat) => (k : Int)) 0 Workload.Insert_Empty rfl (by decide)

/-- C6: in the trace of `TestSuite::run`, for the workload at every position
`i` and every level `n` of `thread_nums`, the events of that level form one
contiguous block: the `reset()` of that workload, then the start timestamp,
then the launches and joins, then the end timestamp. No other event of the
level occurs anywhere else, so `reset()` is invoked exactly once for the
level, before the start timestamp, which is read before any launch; and no
reset event lies among the launches and joins. -/
theorem C6_reset_once_before_timed_run (s : TestSuite) (iterations : Int) (clock : Nat → Int)
    (i : Nat) (T : Workload) (hT : s.tests[i]? = some T) (n : Nat) (hn : n ∈ thread_nums) :
    ∃ pre post k0, s.run iterations clock
        = pre ++ (Event.reset i n (T.reset iterations)
            :: Event.start_time i n (clock k0)
            :: launch_subthreads n i (-1)
            ++ [Event.end_time i n (clock (k0 + 1))]) ++ post
      ∧ (∀ e ∈ pre ++ post, e.level ≠ some (i, (n : Int)))
      ∧ (∀ e ∈ launch_subthreads n i (-1), e.isReset = false)
      ∧ ((s.run iterations clock).filter
          (fun e => e.isReset && decide (e.level = some (i, (n : Int))))).length = 1 := by
  obtain ⟨pre, post, k0, heq, hlv⟩ := run_segment s iterations clock i T hT n hn
  refine ⟨pre, post, k0, heq, hlv, fun e he => (launch_subthreads_level n i e he).2.1, ?_⟩
  have hpre : pre.filter (fun e => e.isReset && decide (e.level = some (i, (n : Int)))) = [] := by
    rw [List.filter_eq_nil_iff]
    intro e he
    simp [hlv e (List.mem_append_left _ he)]
  have hpost : post.filter (fun e => e.isReset && decide (e.level = some (i, (n : Int)))) = [] := by
    rw [List.filter_eq_nil_iff]
    intro e he
    simp [hlv e (List.mem_append_right _ he)]
  have hmid : (launch_subthreads n i (-1)).filter
      (fun e => e.isReset && decide (e.level = some (i, (n : Int)))) = [] := by
    rw [List.filter_eq_nil_iff]
    intro e he
    simp [(launch_subthreads_level n i e he).2.1]
  rw [heq]
  simp only [List.filter_append, List.filter_cons, List.filter_nil, hpre, hpost, hmid]
  simp [Event.isReset, Event.level]

/-- C6 at a concrete input: level 4 of the second of two registered workloads -/
theorem C6_reset_once_before_timed_run_witness :
    ∃ pre post k0,
      (TestSuite.mk [Workload.Insert_Empty, Workload.Queries_IntIDRange]).run 3 (fun (k : Nat) => (k : Int))
        = pre ++ (Event.reset 1 4 (Workload.Queries_IntIDRange.reset 3)
            :: Event.start_time 1 4 ((fun (k : Nat) => (k : Int)) k0)
            :: launch_subthreads 4 1 (-1)
            ++ [Event.end_time 1 4 ((fun (k : Nat) => (k : Int)) (k0 + 1))]) ++ post
      ∧ (∀ e ∈ pre ++ post, e.level ≠ some (1, ((4 : Nat) : Int)))
      ∧ (∀ e ∈ launch_subthreads 4 1 (-1), e.isReset = false)
      ∧ (((TestSuite.mk [Workload.Insert_Empty, Workload.Queries_IntIDRange]).run 3
            (fun (k : Nat) => (k : Int))).filter
          (fun e => e.isReset && decide (e.level = some (1, ((4 : Nat) : Int))))).length = 1 :=
  C6_reset_once_before_timed_run (TestSuite.mk [Workload.Insert_Empty, Workload.Queries_IntIDRange])
    3 (fun (k : Nat) => (k : Int)) 1 Workload.Queries_IntIDRange rfl 4 (by decide)

/-! ## The report documents -/

theorem Event.reported_eq_none_of_level (e : Event) (p : Nat × Int) (h : e.level = some p) :
    e.reported = none := by
  cases e <;> simp [Event.level, Event.reported] at h ⊢

theorem reports_runLevels (test : Nat) (T : Workload) (iterations : Int) (clock : Nat → Int)
    (levels : List Nat) (k : Nat) (one : Option Double) :
    reports (runLevels test T iterations clock levels k one).1 = [] := by
  unfold reports
  rw [List.filterMap_eq_nil_iff]
  intro e he
  obtain ⟨m, -, hl⟩ := runLevels_mem _ _ _ _ _ _ _ e he
  exact Event.reported_eq_none_of_level e _ hl

theorem reports_runTests_cons (iterations : Int) (clock : Nat → Int) (T : Workload)
    (rest : List Workload) (test0 k : Nat) :
    reports (runTests iterations clock (T :: rest) test0 k)
      = ⟨T.name, (runLevels test0 T iterations clock thread_nums k none).2.1⟩
        :: reports (runTests iterations clock rest (test0 + 1) (k + 2 * thread_nums.length)) := by
  have h := reports_runLevels test0 T iterations clock thread_nums k none
  unfold reports at h ⊢
  rw [runTests, runLevels_readings]
  simp [List.filterMap_cons, List.filterMap_append, h, Event.reported]

theorem runLevels_keys (test : Nat) (T : Workload) (iterations : Int) (clock : Nat → Int)
    (levels : List Nat) (k : Nat) (one : Option Double) :
    (runLevels test T iterations clock levels k one).2.1.map Prod.fst
      = levels.map (fun (n : Nat) => numStr (n : Int)) := by
  induction levels generalizing k one with
  | nil => simp [runLevels]
  | cons n rest ih => simp [runLevels, ih]

theorem reports_names (iterations : Int) (clock : Nat → Int) (tests : List Workload)
    (test0 k : Nat) :
    (reports (runTests iterations clock tests test0 k)).map Report.name
      = tests.map Workload.name := by
  induction tests generalizing test0 k with
  | nil => simp [runTests, reports]
  | cons T rest ih => rw [reports_runTests_cons]; simp [ih]

theorem reports_keys (iterations : Int) (clock : Nat → Int) (tests : List Workload)
    (test0 k : Nat) :
    (reports (runTests iterations clock tests test0 k)).map
        (fun d => d.results.map Prod.fst)
      = tests.map (fun _ => thread_nums.map (fun (n : Nat) => numStr (n : Int))) := by
  induction tests generalizing test0 k with
  | nil => simp [runTests, reports]
  | cons T rest ih => rw [reports_runTests_cons]; simp [ih, runLevels_keys]

/-- C5: for every list of registered workloads, `TestSuite::run` writes one
report document per registered workload, in the order of the `add<T>()`
calls (`add` appends to `tests`), and the `results` object of every document
has one entry per level of `thread_nums`, in that ascending order, under the
keys "1", "2", "4", "5", "8", "10". -/
theorem C5_one_report_per_workload_in_order (s : TestSuite) (iterations : Int)
    (clock : Nat → Int) (T : Workload) :
    (reports (s.run iterations clock)).map Report.name = s.tests.map Workload.name
      ∧ (reports (s.run iterations clock)).length = s.tests.length
      ∧ (reports (s.run iterations clock)).map (fun d => d.results.map Prod.fst)
          = s.tests.map (fun _ => ["1", "2", "4", "5", "8", "10"])
      ∧ (reports ((s.add T).run iterations clock)).map Report.name
          = (reports (s.run iterations clock)).map Report.name ++ [T.name]
      ∧ thread_nums.Pairwise (fun a b => a < b) := by
  have hk : thread_nums.map (fun (n : Nat) => numStr (n : Int))
      = ["1", "2", "4", "5", "8", "10"] := by decide
  refine ⟨reports_names _ _ _ _ _, ?_, ?_, ?_, by decide⟩
  · have := congrArg List.length (reports_names iterations clock s.tests 0 0)
    simpa [TestSuite.run] using this
  · rw [← hk]; exact reports_keys _ _ _ _ _
  · simp [TestSuite.run, TestSuite.add, reports_names]

/-! ## When the report of a workload is written -/

theorem Event.isReport_eq_false_of_level (e : Event) (p : Nat × Int) (h : e.level = some p) :
    e.isReport = false := by
  cases e <;> simp [Event.level, Event.isReport] at h ⊢

theorem runLevels_last (test : Nat) (T : Workload) (iterations : Int) (clock : Nat → Int)
    (levels : List Nat) (n : Nat) (hn : levels.getLast? = some n) (k : Nat)
    (one : Option Double) :
    ∃ init k0, (runLevels test T iterations clock levels k one).1
      = init ++ [Event.end_time test n (clock k0)] := by
  induction levels generalizing k one with
  | nil => simp at hn
  | cons m rest ih =>
    cases rest with
    | nil =>
      have hm : m = n := by simpa using hn
      subst hm
      exact ⟨Event.reset test m (T.reset iterations) :: Event.start_time test m (clock k)
        :: launch_subthreads m test (-1), k + 1, by simp [runLevels, timedRun]⟩
    | cons m2 rest2 =>
      have hn2 : (m2 :: rest2).getLast? = some n := by
        simpa [List.getLast?_cons_cons] using hn
      obtain ⟨init, k0, heq⟩ := ih hn2 (k + 2)
        (if m = 1 then some (elapsed (clock k) (clock (k + 1))) else one)
      refine ⟨Event.reset test m (T.reset iterations) :: Event.start_time test m (clock k)
        :: launch_subthreads m test (-1) ++ Event.end_time test m (clock (k + 1)) :: init,
        k0, ?_⟩
      rw [runLevels]
      simp only [timedRun]
      rw [heq]; simp

theorem runTests_report (iterations : Int) (clock : Nat → Int) (tests : List Workload)
    (test0 k i : Nat) (T : Workload) (hT : tests[i]? = some T) :
    ∃ pre post d k0, runTests iterations clock tests test0 k
        = pre ++ Event.end_time (test0 + i) 10 (clock k0) :: Event.report (test0 + i) d :: post
      ∧ d.name = T.name
      ∧ (∀ e ∈ pre, e.test ≤ test0 + i ∧ (e.isReport = true → e.test < test0 + i))
      ∧ (∀ e ∈ post, test0 + i < e.test) := by
  induction tests generalizing test0 k i with
  | nil => simp at hT
  | cons T0 rest ih =>
    cases i with
    | zero =>
      have hTT : T0 = T := by simpa using hT
      subst hTT
      obtain ⟨init, k0, heq⟩ := runLevels_last test0 T0 iterations clock thread_nums 10
        (by decide) k none
      refine ⟨Event.banner test0 T0.name :: init,
        runTests iterations clock rest (test0 + 1)
          (runLevels test0 T0 iterations clock thread_nums k none).2.2,
        ⟨T0.name, (runLevels test0 T0 iterations clock thread_nums k none).2.1⟩, k0, ?_, rfl,
        ?_, ?_⟩
      · rw [runTests, heq]; simp
      · intro e he
        rcases List.mem_cons.mp he with rfl | he
        · simp [Event.test, Event.isReport]
        · have hmem : e ∈ (runLevels test0 T0 iterations clock thread_nums k none).1 := by
            rw [heq]; exact List.mem_append_left _ he
          obtain ⟨m, -, hl⟩ := runLevels_mem _ _ _ _ _ _ _ e hmem
          have h1 := Event.level_fst e _ hl
          have h2 := Event.isReport_eq_false_of_level e _ hl
          simp only at h1
          simp [h2, ← h1]
      · intro e he
        have := (runTests_test _ _ _ _ _ e he).1
        omega
    | succ j =>
      have hT' : rest[j]? = some T := by simpa using hT
      obtain ⟨pre, post, d, k0, heq, hname, hpre, hpost⟩ := ih (test0 + 1)
        (runLevels test0 T0 iterations clock thread_nums k none).2.2 j hT'
      have hidx : test0 + 1 + j = test0 + (j + 1) := by omega
      rw [hidx] at heq hpre hpost
      refine ⟨Event.banner test0 T0.name
          :: (runLevels test0 T0 iterations clock thread_nums k none).1
          ++ Event.report test0
            ⟨T0.name, (runLevels test0 T0 iterations clock thread_nums k none).2.1⟩ :: pre,
        post, d, k0, ?_, hname, ?_, hpost⟩
      · rw [runTests, heq]; simp
      · intro e he
        simp only [List.mem_append, List.mem_cons] at he
        rcases he with (rfl | he) | rfl | he
        · simp [Event.test]
        · rw [runLevels_test _ _ _ _ _ _ _ e he]
          exact ⟨by omega, fun _ => by omega⟩
        · simp [Event.test]
        · exact hpre e he

/-- C9 fails as stated: with the two workloads `Insert::Empty` and
`Insert::IntID` registered, the document of the first workload is written
to standard output and only later does level 10 of the second (the last)
workload reach its end timestamp. -/
theorem C9_report_before_last_workload_counterexample :
    ∃ pre d post,
      (((TestSuite.mk []).add Workload.Insert_Empty).add Workload.Insert_IntID).run 0
          (fun _ => 0)
        = pre ++ Event.report 0 d :: post
      ∧ Event.end_time 1 10 0 ∈ post := by
  obtain ⟨pre0, post0, d0, k0, h0, -, hpre0, -⟩ := runTests_report 0 (fun _ => 0)
    [Workload.Insert_Empty, Workload.Insert_IntID] 0 0 0 Workload.Insert_Empty rfl
  obtain ⟨pre1, post1, d1, k1, h1, -, -, -⟩ := runTests_report 0 (fun _ => 0)
    [Workload.Insert_Empty, Workload.Insert_IntID] 0 0 1 Workload.Insert_IntID rfl
  refine ⟨pre0 ++ [Event.end_time (0 + 0) 10 ((fun _ => 0) k0)], d0, post0, ?_, ?_⟩
  · simp only [TestSuite.run, TestSuite.add, List.nil_append, List.cons_append]
    rw [h0]; simp
  · have hmem : Event.end_time 1 10 0
        ∈ runTests 0 (fun _ => 0) [Workload.Insert_Empty, Workload.Insert_IntID] 0 0 := by
      rw [h1]; simp
    rw [h0] at hmem
    simp only [List.mem_append, List.mem_cons] at hmem
    rcases hmem with h | h | h | h
    · have := (hpre0 _ h).1
      simp [Event.test] at this
    · simp at h
    · simp at h
    · exact h

/-- C9 as amended: `TestSuite::run` writes one report document per workload,
that of the workload at position `i` directly after the end timestamp of its
last level (10): everything before it belongs to workloads at positions up
to `i` and contains no other document of workload `i`, and every event of a
later workload (its banner, resets, timed levels and document) comes after. -/
theorem C9_report_written_after_each_workload (s : TestSuite) (iterations : Int)
    (clock : Nat → Int) (i : Nat) (T : Workload) (hT : s.tests[i]? = some T) :
    ∃ pre post d k0, s.run iterations clock
        = pre ++ Event.end_time i 10 (clock k0) :: Event.report i d :: post
      ∧ d.name = T.name
      ∧ (∀ e ∈ pre, e.test ≤ i ∧ (e.isReport = true → e.test < i))
      ∧ (∀ e ∈ post, i < e.test) := by
  have := runTests_report iterations clock s.tests 0 0 i T hT
  simpa [TestSuite.run] using this

/-- C9 as amended, at a concrete input: the first of two registered workloads -/
theorem C9_report_written_after_each_workload_witness :
    ∃ pre post d k0,
      (TestSuite.mk [Workload.Insert_Empty, Workload.Insert_IntID]).run 7
          (fun (k : Nat) => (k : Int))
        = pre ++ Event.end_time 0 10 ((fun (k : Nat) => (k : Int)) k0)
            :: Event.report 0 d :: post
      ∧ d.name = Workload.Insert_Empty.name
      ∧ (∀ e ∈ pre, e.test ≤ 0 ∧ (e.isReport = true → e.test < 0))
      ∧ (∀ e ∈ post, 0 < e.test) :=
  C9_report_written_after_each_workload
    (TestSuite.mk [Workload.Insert_Empty, Workload.Insert_IntID]) 7
    (fun (k : Nat) => (k : Int)) 0 Workload.Insert_Empty rfl

theorem forLoop_forall (P : Call → Prop) (bound : Int) (body : Int → List Call)
    (h : ∀ i, ∀ c ∈ body i, P c) : ∀ c ∈ forLoop bound body, P c := by
  intro c hc
  simp only [forLoop, List.mem_flatMap] at hc
  obtain ⟨i, -, hi⟩ := hc
  exact h _ c hi

theorem Workload.body_slot (T : Workload) (iterations t n : Int) (calls : List Call)
    (h : T.run iterations t n = some calls) : ∀ c ∈ calls, c.slot = t := by
  intro c hc
  by_cases hn : n = 0
  · cases T <;> simp [Workload.run, Overhead.DoNothing.run, Insert.Empty.run, Insert.EmptyBatched.run,
      Insert.EmptyCapped.run, Insert.JustID.run, Insert.IntID.run, Insert.IntIDUpsert.run,
      Insert.JustNum.run, Insert.JustNumIndexedBefore.run, Insert.JustNumIndexedAfter.run,
      Insert.NumAndID.run, Update.IncNoIndexUpsert.run, Update.IncWithIndexUpsert.run,
      Update.IncNoIndex.run, Update.IncWithIndex.run, Update.IncNoIndex_QueryOnSecondary.run,
      Update.IncWithIndex_QueryOnSecondary.run, Queries.Empty.run, Queries.HundredTableScans.run,
      Queries.IntID.run, Queries.IntIDRange.run, Queries.IntIDFindOne.run, Queries.IntNonID.run,
      Queries.IntNonIDRange.run, Queries.IntNonIDFindOne.run, Queries.RegexPrefixFindOne.run,
      Queries.TwoIntsBothGood.run, Queries.TwoIntsFirstGood.run, Queries.TwoIntsSecondGood.run,
      Queries.TwoIntsBothBad.run, cdiv, hn] at h
    subst h
    simp at hc
  · cases T with
    | Insert_EmptyBatched B =>
      by_cases hB : B = 0
      · simp [Workload.run, Insert.EmptyBatched.run, cdiv, hB] at h
      · simp [Workload.run, Insert.EmptyBatched.run, cdiv, hB, hn] at h
        subst h
        simp [forLoop] at hc
        obtain ⟨_, _, rfl⟩ := hc
        rfl
    | _ =>
      simp [Workload.run, Overhead.DoNothing.run, Insert.Empty.run,
        Insert.EmptyCapped.run, Insert.JustID.run, Insert.IntID.run, Insert.IntIDUpsert.run,
        Insert.JustNum.run, Insert.JustNumIndexedBefore.run, Insert.JustNumIndexedAfter.run,
        Insert.NumAndID.run, Update.IncNoIndexUpsert.run, Update.IncWithIndexUpsert.run,
        Update.IncNoIndex.run, Update.IncWithIndex.run, Update.IncNoIndex_QueryOnSecondary.run,
        Update.IncWithIndex_QueryOnSecondary.run, Queries.Empty.run, Queries.HundredTableScans.run,
        Queries.IntID.run, Queries.IntIDRange.run, Queries.IntIDFindOne.run, Queries.IntNonID.run,
        Queries.IntNonIDRange.run, Queries.IntNonIDFindOne.run, Queries.RegexPrefixFindOne.run,
        Queries.TwoIntsBothGood.run, Queries.TwoIntsFirstGood.run, Queries.TwoIntsSecondGood.run,
        Queries.TwoIntsBothBad.run, cdiv, hn] at h
      subst h
      first
        | (simp at hc; done)
        | (simp [forLoop] at hc
           first
            | (rcases hc with rfl | ⟨_, _, rfl⟩ <;> rfl)
            | (rcases hc with ⟨_, _, rfl⟩ | rfl <;> rfl)
            | (obtain ⟨_, _, rfl⟩ := hc; rfl)
            | (obtain ⟨_, _, _, _, rfl⟩ := hc; rfl))
theorem Test.wrapped_slot (T : Workload) (iterations t n : Int) (calls : List (Origin × Call))
    (h : Test.run T iterations t n = some calls) : ∀ c ∈ calls, c.2.slot = t := by
  unfold Test.run at h
  cases hb : T.run iterations t n with
  | none => simp [hb] at h
  | some body =>
    simp only [hb, Option.bind_eq_bind, Option.some_bind, Option.pure_def, Option.some.injEq] at h
    subst h
    intro c hc
    simp only [List.mem_append, List.mem_map, List.mem_singleton] at hc
    rcases hc with ⟨b, hb', rfl⟩ | rfl
    · exact Workload.body_slot T iterations t n body hb b hb'
    · rfl

theorem TheTestSuite_tests : TheTestSuite.tests =
    [Workload.Insert_Empty, Workload.Insert_EmptyBatched 2, Workload.Insert_EmptyBatched 10,
      Workload.Insert_IntID, Workload.Insert_IntIDUpsert, Workload.Insert_JustNumIndexedBefore,
      Workload.Insert_JustNumIndexedAfter, Workload.Update_IncNoIndexUpsert,
      Workload.Update_IncWithIndexUpsert, Workload.Update_IncNoIndex,
      Workload.Update_IncWithIndex, Workload.Update_IncNoIndex_QueryOnSecondary,
      Workload.Update_IncWithIndex_QueryOnSecondary, Workload.Queries_HundredTableScans,
      Workload.Queries_IntIDRange, Workload.Queries_IntIDFindOne,
      Workload.Queries_IntNonIDRange, Workload.Queries_IntNonIDFindOne] := rfl

theorem Workload.body_isSome (T : Workload) (hT : T ∈ TheTestSuite.tests) (iterations t n : Int)
    (hn : n ≠ 0) : ∃ calls, T.run iterations t n = some calls := by
  rw [TheTestSuite_tests] at hT
  simp only [List.mem_cons, List.mem_singleton, List.not_mem_nil, or_false] at hT
  rcases hT with rfl | rfl | rfl | rfl | rfl | rfl | rfl | rfl | rfl | rfl | rfl | rfl | rfl | rfl
    | rfl | rfl | rfl | rfl <;>
  simp [Workload.run, Insert.Empty.run, Insert.EmptyBatched.run, Insert.IntID.run,
    Insert.IntIDUpsert.run, Insert.JustNumIndexedBefore.run, Insert.JustNumIndexedAfter.run,
    Update.IncNoIndexUpsert.run, Update.IncWithIndexUpsert.run, Update.IncNoIndex.run,
    Update.IncWithIndex.run, Update.IncNoIndex_QueryOnSecondary.run,
    Update.IncWithIndex_QueryOnSecondary.run, Queries.HundredTableScans.run,
    Queries.IntIDRange.run, Queries.IntIDFindOne.run, Queries.IntNonIDRange.run,
    Queries.IntNonIDFindOne.run, cdiv, hn]

theorem Test.wrapped_isSome (T : Workload) (hT : T ∈ TheTestSuite.tests) (iterations t n : Int)
    (hn : n ≠ 0) : ∃ body, T.run iterations t n = some body
      ∧ Test.run T iterations t n
        = some (body.map (fun c => (Origin.body, c)) ++ [(Origin.wrapper, Call.getLastError t)]) := by
  obtain ⟨body, hb⟩ := Workload.body_isSome T hT iterations t n hn
  exact ⟨body, hb, by simp [Test.run, hb]⟩

theorem thread_nums_bounds (n : Nat) (hn : n ∈ thread_nums) : 1 ≤ n ∧ n ≤ 10 := by
  simp only [thread_nums, List.mem_cons, List.mem_singleton, List.not_mem_nil, or_false] at hn
  omega

theorem launch_mem (N test : Nat) (t total : Int)
    (h : Event.launch test t total ∈ launch_subthreads N test (-1)) :
    ∃ i : Nat, i < N ∧ t = (i : Int) ∧ total = (N : Int) := by
  obtain ⟨i, hi, h1 | h1⟩ := launch_subthreads_mem N test _ h
  · simp only [Event.launch.injEq, true_and] at h1
    exact ⟨i, hi, h1.1, h1.2⟩
  · cases h1

/-- C10: for every level `N` of `thread_nums` and every worker that
`launch_subthreads` starts at that level, the worker index `t` is a valid
index into `conn[]` (`0 ≤ t < max_threads`), and every call made during the
worker's run of a workload registered in `TheTestSuite` (the body
`run(t, N)` and the wrapper's `getLastError`) goes through `conn[t]`; so the
calls of two different workers of the level never share a slot. -/
theorem C10_connection_slot_ownership (T : Workload) (hT : T ∈ TheTestSuite.tests) (N : Nat)
    (hN : N ∈ thread_nums) (test : Nat) (iterations : Int) (t total : Int)
    (hl : Event.launch test t total ∈ launch_subthreads N test (-1)) :
    0 ≤ t ∧ t < max_threads
      ∧ ∃ calls, Test.run T iterations t total = some calls
        ∧ (∀ c ∈ calls, c.2.slot = t)
        ∧ ∀ (t' total' : Int) (calls' : List (Origin × Call)),
            Event.launch test t' total' ∈ launch_subthreads N test (-1) → t' ≠ t →
            Test.run T iterations t' total' = some calls' →
            ∀ c ∈ calls, ∀ c' ∈ calls', c.2.slot ≠ c'.2.slot := by
  obtain ⟨i, hi, rfl, rfl⟩ := launch_mem N test t total hl
  have hb := thread_nums_bounds N hN
  have hN0 : (N : Int) ≠ 0 := by omega
  obtain ⟨body, -, hrun⟩ := Test.wrapped_isSome T hT iterations (i : Int) (N : Int) hN0
  refine ⟨by omega, by simp only [max_threads]; omega, _, hrun, ?_, ?_⟩
  · exact Test.wrapped_slot T iterations _ _ _ hrun
  · intro t' total' calls' _ hne hrun' c hc c' hc'
    rw [Test.wrapped_slot T iterations _ _ _ hrun c hc, Test.wrapped_slot T iterations _ _ _ hrun' c' hc']
    exact fun h => hne h.symm

/-- C10 at a concrete input: worker 3 of level 4 running `Queries::IntIDRange` -/
theorem C10_connection_slot_ownership_witness :
    (0 : Int) ≤ 3 ∧ (3 : Int) < max_threads
      ∧ ∃ calls, Test.run Workload.Queries_IntIDRange 1000 3 4 = some calls
        ∧ (∀ c ∈ calls, c.2.slot = 3)
        ∧ ∀ (t' total' : Int) (calls' : List (Origin × Call)),
            Event.launch 0 t' total' ∈ launch_subthreads 4 0 (-1) → t' ≠ 3 →
            Test.run Workload.Queries_IntIDRange 1000 t' total' = some calls' →
            ∀ c ∈ calls, ∀ c' ∈ calls', c.2.slot ≠ c'.2.slot :=
  C10_connection_slot_ownership Workload.Queries_IntIDRange (by decide) 4 (by decide) 0 1000 3 4
    (by decide)

theorem forLoop_zero (body : Int → List Call) : forLoop 0 body = [] := by
  simp [forLoop]

theorem forLoop_nil (bound : Int) : forLoop bound (fun _ => []) = [] := by
  simp [forLoop]

theorem forLoop_singleton_length (bound : Int) (f : Int → Call) :
    (forLoop bound fun i => [f i]).length = bound.toNat := by
  simp [forLoop, Function.comp_def]

theorem tdiv_small (iterations n : Int) (h0 : 0 ≤ iterations) (h1 : iterations < n) :
    iterations.tdiv n = 0 := Int.tdiv_eq_zero_of_lt h0 h1

theorem tdiv_batch_small (iterations B n : Int) (hB : 0 < B) (h0 : 0 ≤ iterations)
    (h1 : iterations < n) : (iterations.tdiv B).tdiv n = 0 := by
  apply Int.tdiv_eq_zero_of_lt
  · exact Int.tdiv_nonneg h0 hB.le
  · have h2 : iterations.tdiv B ≤ iterations := by
      rw [Int.tdiv_eq_ediv h0 hB.le]
      exact Int.ediv_le_self _ h0
    omega

/-- C8 fails as stated: `Queries::HundredTableScans` is registered in
`TheTestSuite`, and with `iterations = 0` at level 1 its worker 0 does not
return at once but issues 100 `findOne` calls. -/
theorem C8_degenerate_case_counterexample :
    Workload.Queries_HundredTableScans ∈ TheTestSuite.tests
      ∧ 1 ∈ thread_nums ∧ (0 : Int) ≤ 0 ∧ (0 : Int) < ((1 : Nat) : Int)
      ∧ ∃ calls, Workload.Queries_HundredTableScans.run 0 0 ((1 : Nat) : Int) = some calls
        ∧ (calls.filter Call.isServiceOp).length = 100 := by
  refine ⟨by decide, by decide, by decide, by decide, _, rfl, by decide⟩
/-- C8 as amended: for every workload registered in `TheTestSuite`, every
level `n` of `thread_nums`, every iteration count with `0 ≤ iterations < n`
and every worker index `t`, the body `run(t, n)` does not fail. It issues no
call at all, except for five workloads whose calls do not depend on the
iteration share: `Insert::JustNumIndexedBefore` and
`Insert::JustNumIndexedAfter` issue their one `ensureIndex`,
`Queries::IntIDRange` and `Queries::IntNonIDRange` issue their one range
query (over the empty range from 0 to 0), and `Queries::HundredTableScans`
issues its `100 / n` `findOne` calls. -/
theorem C8_degenerate_case_amended (T : Workload) (hT : T ∈ TheTestSuite.tests) (n : Nat)
    (hn : n ∈ thread_nums) (iterations t : Int) (h0 : 0 ≤ iterations)
    (h1 : iterations < (n : Int)) :
    ∃ calls, T.run iterations t (n : Int) = some calls
      ∧ (T ∉ [Workload.Insert_JustNumIndexedBefore, Workload.Insert_JustNumIndexedAfter,
            Workload.Queries_IntIDRange, Workload.Queries_IntNonIDRange,
            Workload.Queries_HundredTableScans] → calls = [])
      ∧ (T = Workload.Insert_JustNumIndexedBefore ∨ T = Workload.Insert_JustNumIndexedAfter →
          calls = [Call.ensureIndex t ns [("x", Val.int 1)]])
      ∧ (T = Workload.Queries_IntIDRange → calls = [Call.query t ns (rangeDoc "_id" 0 0) 0 0])
      ∧ (T = Workload.Queries_IntNonIDRange → calls = [Call.query t ns (rangeDoc "x" 0 0) 0 0])
      ∧ (T = Workload.Queries_HundredTableScans →
          calls = (forLoop (Int.tdiv 100 (n : Int)) fun i =>
              [Call.findOne t ns [("does_not_exist", Val.int i)]])
            ∧ calls.length = 100 / n) := by
  have hb := thread_nums_bounds n hn
  have hn0 : (n : Int) ≠ 0 := by omega
  have hd := tdiv_small iterations n h0 h1
  have hd2 := tdiv_batch_small iterations 2 n (by norm_num) h0 h1
  have hd10 := tdiv_batch_small iterations 10 n (by norm_num) h0 h1
  have hlen : ((forLoop (Int.tdiv 100 (n : Int)) fun i =>
      [Call.findOne t ns [("does_not_exist", Val.int i)]]).length : Nat) = 100 / n := by
    have : Int.tdiv 100 (n : Int) = ((100 / n : Nat) : Int) := by
      rw [Int.tdiv_eq_ediv (by norm_num) (by omega)]; norm_cast
    rw [forLoop_singleton_length, this]
    exact Int.toNat_ofNat _
  rw [TheTestSuite_tests] at hT
  simp only [List.mem_cons, List.mem_singleton, List.not_mem_nil, or_false] at hT
  rcases hT with rfl | rfl | rfl | rfl | rfl | rfl | rfl | rfl | rfl | rfl | rfl | rfl | rfl | rfl
    | rfl | rfl | rfl | rfl <;>
  simp [Workload.run, Insert.Empty.run, Insert.EmptyBatched.run, Insert.IntID.run,
    Insert.IntIDUpsert.run, Insert.JustNumIndexedBefore.run, Insert.JustNumIndexedAfter.run,
    Update.IncNoIndexUpsert.run, Update.IncWithIndexUpsert.run, Update.IncNoIndex.run,
    Update.IncWithIndex.run, Update.IncNoIndex_QueryOnSecondary.run,
    Update.IncWithIndex_QueryOnSecondary.run, Queries.HundredTableScans.run,
    Queries.IntIDRange.run, Queries.IntIDFindOne.run, Queries.IntNonIDRange.run,
    Queries.IntNonIDFindOne.run, cdiv, hn0, hd, hd2, hd10, forLoop_zero, forLoop_nil, hlen]

/-- C8 as amended, at a concrete input: `Insert::IntID` with 3 iterations at level 4 -/
theorem C8_degenerate_case_amended_witness :
    ∃ calls, Workload.Insert_IntID.run 3 2 ((4 : Nat) : Int) = some calls
      ∧ (Workload.Insert_IntID ∉ [Workload.Insert_JustNumIndexedBefore,
            Workload.Insert_JustNumIndexedAfter,
            Workload.Queries_IntIDRange, Workload.Queries_IntNonIDRange,
            Workload.Queries_HundredTableScans] → calls = [])
      ∧ (Workload.Insert_IntID = Workload.Insert_JustNumIndexedBefore
          ∨ Workload.Insert_IntID = Workload.Insert_JustNumIndexedAfter →
          calls = [Call.ensureIndex 2 ns [("x", Val.int 1)]])
      ∧ (Workload.Insert_IntID = Workload.Queries_IntIDRange →
          calls = [Call.query 2 ns (rangeDoc "_id" 0 0) 0 0])
      ∧ (Workload.Insert_IntID = Workload.Queries_IntNonIDRange →
          calls = [Call.query 2 ns (rangeDoc "x" 0 0) 0 0])
      ∧ (Workload.Insert_IntID = Workload.Queries_HundredTableScans →
          calls = (forLoop (Int.tdiv 100 ((4 : Nat) : Int)) fun i =>
              [Call.findOne 2 ns [("does_not_exist", Val.int i)]])
            ∧ calls.length = 100 / 4) :=
  C8_degenerate_case_amended Workload.Insert_IntID (by decide) 4 (by decide) 3 2 (by decide)
    (by decide)

/-! ## Facts about binary64 rounding -/

theorem roundHalfEven_bounds (x : ℚ) : ⌊x⌋ ≤ roundHalfEven x ∧ roundHalfEven x ≤ ⌊x⌋ + 1 := by
  unfold roundHalfEven
  split_ifs <;> constructor <;> omega

theorem Double.round_one : Double.round false 1 = Double.one := by
  have hlog : Int.log 2 (1 : ℚ) = 0 := Int.log_one_right 2
  have hmax : max (0 : ℤ) (-1022) = 0 := by decide
  have hpow : (1 : ℚ) / (2 : ℚ) ^ ((0 : ℤ) - 52) = ((4503599627370496 : ℤ) : ℚ) := by
    rw [zero_sub, zpow_neg, one_div, inv_inv]
    norm_num
  have hr : roundHalfEven (((4503599627370496 : ℤ) : ℚ)) = 4503599627370496 := by
    unfold roundHalfEven
    rw [Int.floor_intCast]
    norm_num
  have hback : ((4503599627370496 : ℤ) : ℚ) * (2 : ℚ) ^ ((0 : ℤ) - 52) = 1 := by
    rw [zero_sub, zpow_neg]
    norm_num
  unfold Double.round Double.one
  rw [hlog, hmax, hpow, hr, hback]
  norm_num

theorem Double.round_normal (neg : Bool) (x : ℚ) (hlo : (2 : ℚ) ^ (-1022 : ℤ) ≤ x)
    (hhi : x < (2 : ℚ) ^ (1023 : ℤ)) :
    ∃ r, Double.round neg x = Double.fin neg r ∧ x / 2 ≤ r ∧ r ≤ 2 * x := by
  have hx : 0 < x := lt_of_lt_of_le (zpow_pos (by norm_num) _) hlo
  have hlog1 : ((2 : ℕ) : ℚ) ^ Int.log 2 x ≤ x := Int.zpow_log_le_self (by norm_num) hx
  have hlog2 : x < ((2 : ℕ) : ℚ) ^ (Int.log 2 x + 1) := Int.lt_zpow_succ_log_self (by norm_num) x
  have hlog3 : (-1022 : ℤ) ≤ Int.log 2 x :=
    (Int.zpow_le_iff_le_log (by norm_num) hx).mp (by exact_mod_cast hlo)
  rw [Nat.cast_ofNat] at hlog1 hlog2
  have hmax : max (Int.log 2 x) (-1022) = Int.log 2 x := max_eq_left hlog3
  have hu : 0 < (2 : ℚ) ^ (Int.log 2 x - 52) := zpow_pos (by norm_num) _
  have hue : (2 : ℚ) ^ (52 : ℕ) * (2 : ℚ) ^ (Int.log 2 x - 52) = (2 : ℚ) ^ Int.log 2 x := by
    rw [← zpow_natCast, ← zpow_add₀ (by norm_num : (2 : ℚ) ≠ 0)]
    congr 1; push_cast; ring
  have hsucc : (2 : ℚ) ^ (Int.log 2 x + 1) = 2 * (2 : ℚ) ^ Int.log 2 x := by
    rw [zpow_add₀ (by norm_num : (2 : ℚ) ≠ 0)]; ring
  rw [hsucc] at hlog2
  generalize hugen : (2 : ℚ) ^ (Int.log 2 x - 52) = u at hu hue
  generalize hegen : (2 : ℚ) ^ Int.log 2 x = E at hlog1 hlog2 hue
  have h52 : ((2 ^ 52 : ℤ) : ℚ) = (2 : ℚ) ^ (52 : ℕ) := by norm_num
  have hy1 : ((2 ^ 52 : ℤ) : ℚ) ≤ x / u := by
    rw [le_div_iff₀ hu, h52, hue]; exact hlog1
  have hfl : (2 ^ 52 : ℤ) ≤ ⌊x / u⌋ := Int.le_floor.mpr hy1
  have hb := roundHalfEven_bounds (x / u)
  have hm1 : ((2 ^ 52 : ℤ) : ℚ) ≤ (roundHalfEven (x / u) : ℚ) := by
    exact_mod_cast le_trans hfl hb.1
  have hm2 : (roundHalfEven (x / u) : ℚ) ≤ x / u + 1 := by
    have h1 : (roundHalfEven (x / u) : ℚ) ≤ ((⌊x / u⌋ + 1 : ℤ) : ℚ) := by exact_mod_cast hb.2
    have h2 : ((⌊x / u⌋ : ℤ) : ℚ) ≤ x / u := Int.floor_le _
    push_cast at h1
    linarith
  have hr1 : E ≤ (roundHalfEven (x / u) : ℚ) * u := by
    rw [← hue]
    rw [h52] at hm1
    exact mul_le_mul_of_nonneg_right hm1 hu.le
  have hr2 : (roundHalfEven (x / u) : ℚ) * u ≤ x + u := by
    have := mul_le_mul_of_nonneg_right hm2 hu.le
    rw [add_mul, div_mul_cancel₀ _ hu.ne', one_mul] at this
    exact this
  have huE : u ≤ E := by
    rw [← hue]
    have : (1 : ℚ) ≤ 2 ^ 52 := by norm_num
    nlinarith
  have hbig : (2 : ℚ) ^ (1024 : ℤ) = 2 * (2 : ℚ) ^ (1023 : ℤ) := by
    rw [show (1024 : ℤ) = 1023 + 1 by norm_num, zpow_add₀ (by norm_num : (2 : ℚ) ≠ 0)]; ring
  refine ⟨(roundHalfEven (x / u) : ℚ) * u, ?_, by linarith, by linarith⟩
  unfold Double.round
  rw [if_neg hx.ne', hmax, hugen, if_neg]
  rw [hbig]
  intro hc
  linarith

theorem Double.div_self_fin (s : Bool) (a : ℚ) (ha : a ≠ 0) :
    Double.div (Double.fin s a) (Double.fin s a) = Double.one := by
  simp only [Double.div, if_neg ha, div_self ha, Bool.xor_self]
  exact Double.round_one

theorem two_zpow_small : (2 : ℚ) ^ (-1022 : ℤ) ≤ 1 / 4000000 := by
  have h1 : (2 : ℚ) ^ (-1022 : ℤ) ≤ (2 : ℚ) ^ (-22 : ℤ) :=
    zpow_le_zpow_right₀ (by norm_num) (by norm_num)
  have h2 : (2 : ℚ) ^ (-22 : ℤ) = 1 / 4194304 := by
    rw [zpow_neg]; norm_num
  rw [h2] at h1
  linarith [show (1 : ℚ) / 4194304 ≤ 1 / 4000000 by norm_num]

theorem two_zpow_large : (2 : ℚ) ^ (65 : ℕ) < (2 : ℚ) ^ (1023 : ℤ) := by
  rw [← zpow_natCast]
  exact zpow_lt_zpow_right₀ (by norm_num) (by norm_num)

theorem elapsed_fin (start end_ : Int) (hne : end_ - start ≠ 0)
    (hbound : |end_ - start| ≤ 2 ^ 63) :
    ∃ s a, elapsed start end_ = Double.fin s a ∧ a ≠ 0 := by
  have habs : (1 : ℚ) ≤ ((|end_ - start| : Int) : ℚ) := by
    have : (1 : Int) ≤ |end_ - start| := Int.one_le_abs hne
    exact_mod_cast this
  have habs2 : ((|end_ - start| : Int) : ℚ) ≤ (2 : ℚ) ^ (63 : ℕ) := by exact_mod_cast hbound
  have hsmall := two_zpow_small
  have hlarge := two_zpow_large
  have h65 : (2 : ℚ) ^ (65 : ℕ) = 4 * (2 : ℚ) ^ (63 : ℕ) := by norm_num
  have h63 : (0 : ℚ) < (2 : ℚ) ^ (63 : ℕ) := by norm_num
  have hx1lo : (2 : ℚ) ^ (-1022 : ℤ) ≤ ((|end_ - start| : Int) : ℚ) :=
    le_trans hsmall (le_trans (by norm_num) habs)
  have hx1hi : ((|end_ - start| : Int) : ℚ) < (2 : ℚ) ^ (1023 : ℤ) :=
    lt_of_le_of_lt (by rw [h65]; linarith) hlarge
  obtain ⟨r1, hr1, hlo1, hhi1⟩ := Double.round_normal (decide (end_ - start < 0))
    ((|end_ - start| : Int) : ℚ) hx1lo hx1hi
  have hx2lo : (2 : ℚ) ^ (-1022 : ℤ) ≤ r1 / 1000000 := by
    refine le_trans hsmall ?_
    rw [le_div_iff₀ (by norm_num)]
    linarith
  have hx2hi : r1 / 1000000 < (2 : ℚ) ^ (1023 : ℤ) := by
    refine lt_of_le_of_lt ?_ hlarge
    rw [div_le_iff₀ (by norm_num), h65]
    linarith
  obtain ⟨r2, hr2, hlo2, -⟩ := Double.round_normal (xor (decide (end_ - start < 0)) false)
    (r1 / 1000000) hx2lo hx2hi
  refine ⟨xor (decide (end_ - start < 0)) false, r2, ?_, ?_⟩
  · unfold elapsed Double.ofInt million
    rw [hr1]
    simp only [Double.div]
    rw [if_neg (by norm_num)]
    exact hr2
  · have : 0 < r1 / 1000000 / 2 := by
      apply div_pos _ (by norm_num)
      apply div_pos _ (by norm_num)
      linarith
    linarith

theorem elapsed_speedup_one (start end_ : Int) (hne : end_ - start ≠ 0)
    (hbound : |end_ - start| ≤ 2 ^ 63) :
    Double.div (elapsed start end_) (elapsed start end_) = Double.one := by
  obtain ⟨s, a, h, ha⟩ := elapsed_fin start end_ hne hbound
  rw [h]
  exact Double.div_self_fin s a ha

theorem elapsed_zero (t : Int) : elapsed t t = Double.fin false 0 := by
  simp [elapsed, Double.ofInt, Double.round, Double.div, million]

theorem elapsed_zero_speedup (t : Int) :
    Double.div (elapsed t t) (elapsed t t) = Double.nan := by
  rw [elapsed_zero]
  simp [Double.div]

/-! ## The measurements stored in a report -/

theorem runLevels_results_tail (test : Nat) (T : Workload) (iterations : Int)
    (clock : Nat → Int) (levels : List Nat) (h1 : 1 ∉ levels) (k : Nat) (one : Option Double)
    (j n : Nat) (hj : levels[j]? = some n) :
    (runLevels test T iterations clock levels k one).2.1[j]?
      = some (numStr (n : Int),
          Measurement.mk (elapsed (clock (k + 2 * j)) (clock (k + 2 * j + 1)))
            (Double.div (Double.ofInt iterations)
              (elapsed (clock (k + 2 * j)) (clock (k + 2 * j + 1))))
            (one.map fun o => Double.div o (elapsed (clock (k + 2 * j)) (clock (k + 2 * j + 1))))) := by
  induction levels generalizing k j with
  | nil => simp at hj
  | cons m rest ih =>
    have hm : m ≠ 1 := fun h => h1 (h ▸ List.mem_cons_self _ _)
    have hrest : 1 ∉ rest := fun h => h1 (List.mem_cons_of_mem _ h)
    cases j with
    | zero =>
      have hmn : m = n := by simpa using hj
      subst hmn
      simp [runLevels, hm]
    | succ j' =>
      have hj' : rest[j']? = some n := by simpa using hj
      have := ih hrest (k + 2) j' hj'
      have e1 : k + 2 + 2 * j' = k + 2 * (j' + 1) := by omega
      rw [e1] at this
      simp only [runLevels, if_neg hm, List.getElem?_cons_succ]
      exact this

theorem runLevels_results (test : Nat) (T : Workload) (iterations : Int) (clock : Nat → Int)
    (k j n : Nat) (hj : thread_nums[j]? = some n) :
    (runLevels test T iterations clock thread_nums k none).2.1[j]?
      = some (numStr (n : Int),
          Measurement.mk (elapsed (clock (k + 2 * j)) (clock (k + 2 * j + 1)))
            (Double.div (Double.ofInt iterations)
              (elapsed (clock (k + 2 * j)) (clock (k + 2 * j + 1))))
            (some (Double.div (elapsed (clock k) (clock (k + 1)))
              (elapsed (clock (k + 2 * j)) (clock (k + 2 * j + 1)))))) := by
  cases j with
  | zero =>
    have hn : n = 1 := by simpa [thread_nums] using hj.symm
    subst hn
    simp [thread_nums, runLevels]
  | succ j' =>
    have hj' : [2, 4, 5, 8, 10][j']? = some n := by simpa [thread_nums] using hj
    have := runLevels_results_tail test T iterations clock [2, 4, 5, 8, 10] (by decide) (k + 2)
      (some (elapsed (clock k) (clock (k + 1)))) j' n hj'
    have e1 : k + 2 + 2 * j' = k + 2 * (j' + 1) := by omega
    rw [e1] at this
    simp only [thread_nums, runLevels, if_true, List.getElem?_cons_succ]
    exact this

theorem reports_get (iterations : Int) (clock : Nat → Int) (tests : List Workload)
    (test0 k i : Nat) (T : Workload) (hT : tests[i]? = some T) :
    (reports (runTests iterations clock tests test0 k))[i]?
      = some ⟨T.name, (runLevels (test0 + i) T iterations clock thread_nums
          (k + 2 * thread_nums.length * i) none).2.1⟩ := by
  induction tests generalizing test0 k i with
  | nil => simp at hT
  | cons T0 rest ih =>
    rw [reports_runTests_cons]
    cases i with
    | zero =>
      have hTT : T0 = T := by simpa using hT
      subst hTT
      simp
    | succ i' =>
      have hT' : rest[i']? = some T := by simpa using hT
      have := ih (test0 + 1) (k + 2 * thread_nums.length) i' hT'
      have e1 : test0 + 1 + i' = test0 + (i' + 1) := by omega
      have e2 : k + 2 * thread_nums.length + 2 * thread_nums.length * i'
          = k + 2 * thread_nums.length * (i' + 1) := by ring
      rw [e1, e2] at this
      simpa using this

theorem run_measurement (s : TestSuite) (iterations : Int) (clock : Nat → Int)
    (i : Nat) (T : Workload) (hT : s.tests[i]? = some T) :
    ∃ d, (reports (s.run iterations clock))[i]? = some d ∧ d.name = T.name
      ∧ ∀ (j n : Nat), thread_nums[j]? = some n →
        d.results[j]? = some (numStr (n : Int),
          Measurement.mk (elapsed (clock (12 * i + 2 * j)) (clock (12 * i + 2 * j + 1)))
            (Double.div (Double.ofInt iterations)
              (elapsed (clock (12 * i + 2 * j)) (clock (12 * i + 2 * j + 1))))
            (some (Double.div (elapsed (clock (12 * i)) (clock (12 * i + 1)))
              (elapsed (clock (12 * i + 2 * j)) (clock (12 * i + 2 * j + 1)))))) := by
  have h := reports_get iterations clock s.tests 0 0 i T hT
  have e : 0 + 2 * thread_nums.length * i = 12 * i := by simp [thread_nums]
  rw [e] at h
  refine ⟨_, h, rfl, ?_⟩
  intro j n hj
  exact runLevels_results _ T iterations clock (12 * i) j n hj

theorem key_one_first (results : List (String × Measurement))
    (hkeys : results.map Prod.fst = ["1", "2", "4", "5", "8", "10"]) (m : Measurement)
    (hm : ("1", m) ∈ results) : results[0]? = some ("1", m) := by
  rcases results with _ | ⟨a, _ | ⟨b, _ | ⟨c, _ | ⟨d, _ | ⟨e, _ | ⟨f, _ | ⟨g, r⟩⟩⟩⟩⟩⟩⟩ <;>
    simp at hkeys
  obtain ⟨ha, hb, hc, hd, he, hf⟩ := hkeys
  simp only [List.mem_cons, List.mem_singleton, List.not_mem_nil, or_false] at hm
  rcases hm with h | h | h | h | h | h
  · simp [h]
  · rw [← h] at hb; simp at hb
  · rw [← h] at hc; simp at hc
  · rw [← h] at hd; simp at hd
  · rw [← h] at he; simp at he
  · rw [← h] at hf; simp at hf

theorem run_results_keys (s : TestSuite) (iterations : Int) (clock : Nat → Int) (i : Nat)
    (d : Report) (hd : (reports (s.run iterations clock))[i]? = some d) :
    d.results.map Prod.fst = ["1", "2", "4", "5", "8", "10"] := by
  have h := reports_keys iterations clock s.tests 0 0
  have hk : thread_nums.map (fun (n : Nat) => numStr (n : Int))
      = ["1", "2", "4", "5", "8", "10"] := by decide
  rw [hk] at h
  have hmem : d.results.map Prod.fst
      ∈ (reports (s.run iterations clock)).map (fun d => d.results.map Prod.fst) :=
    List.mem_map.mpr ⟨d, List.getElem?_mem hd, rfl⟩
  rw [TestSuite.run, h] at hmem
  simp only [List.mem_map] at hmem
  obtain ⟨_, -, h2⟩ := hmem
  exact h2.symm

/-- C3 fails as stated: with one workload registered and a clock that
returns the same instant for the start and the end of level 1 (an elapsed
time of 0 microseconds), the speedup stored under key "1" is `0.0 / 0.0`,
which is NaN and not 1.0. -/
theorem C3_zero_elapsed_counterexample :
    ∃ d m, (reports ((TestSuite.mk [Workload.Insert_Empty]).run 1000 (fun _ => 0)))[0]? = some d
      ∧ ("1", m) ∈ d.results
      ∧ m.speedup = some Double.nan
      ∧ m.speedup ≠ some Double.one := by
  obtain ⟨d, hd, -, hres⟩ := run_measurement (TestSuite.mk [Workload.Insert_Empty]) 1000
    (fun _ => 0) 0 Workload.Insert_Empty rfl
  have h0 := hres 0 1 rfl
  refine ⟨d, _, hd, List.getElem?_mem h0, ?_, ?_⟩
  · simp only [elapsed_zero_speedup]
  · simp only [elapsed_zero_speedup]
    simp [Double.one]

/-- C3 as amended: for every workload, whenever the elapsed time measured at
level 1 is not 0 microseconds (and is a 64-bit tick count, as
`total_microseconds()` returns), the speedup that `TestSuite::run` stores
under key "1" is exactly 1.0. -/
theorem C3_speedup_one_when_elapsed_nonzero (s : TestSuite) (iterations : Int)
    (clock : Nat → Int) (i : Nat) (T : Workload) (hT : s.tests[i]? = some T)
    (hne : clock (12 * i + 1) - clock (12 * i) ≠ 0)
    (hbound : |clock (12 * i + 1) - clock (12 * i)| ≤ 2 ^ 63) :
    ∃ d, (reports (s.run iterations clock))[i]? = some d
      ∧ (∃ m, ("1", m) ∈ d.results)
      ∧ ∀ m, ("1", m) ∈ d.results → m.speedup = some Double.one := by
  obtain ⟨d, hd, -, hres⟩ := run_measurement s iterations clock i T hT
  have h0 := hres 0 1 rfl
  refine ⟨d, hd, ⟨_, List.getElem?_mem h0⟩, ?_⟩
  intro m hm
  have h1 := key_one_first d.results (run_results_keys s iterations clock i d hd) m hm
  rw [h0] at h1
  have hm' := (Prod.mk.inj (Option.some.inj h1)).2
  rw [← hm']
  simp only [Nat.mul_zero, Nat.add_zero]
  rw [elapsed_speedup_one _ _ hne hbound]

/-- C3 as amended, at a concrete input: a clock that advances by one
microsecond per reading -/
theorem C3_speedup_one_when_elapsed_nonzero_witness :
    ∃ d, (reports ((TestSuite.mk [Workload.Insert_Empty]).run 1000
          (fun (k : Nat) => (k : Int))))[0]? = some d
      ∧ (∃ m, ("1", m) ∈ d.results)
      ∧ ∀ m, ("1", m) ∈ d.results → m.speedup = some Double.one :=
  C3_speedup_one_when_elapsed_nonzero (TestSuite.mk [Workload.Insert_Empty]) 1000
    (fun (k : Nat) => (k : Int)) 0 Workload.Insert_Empty rfl (by decide) (by decide)

/-- C4: every measurement that `TestSuite::run` records for the workload at
position `i` and the level at position `j` of `thread_nums` has
`time = (end - start) / 1000000.0` for the two clock readings of that level,
`ops_per_sec = iterations / time`, and `speedup = time1 / time` where `time1`
is the `time` stored under key "1" in the same document, itself computed
from the two clock readings of level 1 of the same workload; the speedup is
never an indeterminate value. There is one document per registered workload
and one entry per level, so this covers every measurement. -/
theorem C4_run_measurement_invariant (s : TestSuite) (iterations : Int) (clock : Nat → Int)
    (i : Nat) (T : Workload) (hT : s.tests[i]? = some T) (j n : Nat)
    (hj : thread_nums[j]? = some n) :
    ∃ d m m1, (reports (s.run iterations clock))[i]? = some d ∧ d.name = T.name
      ∧ (reports (s.run iterations clock)).length = s.tests.length
      ∧ d.results.length = thread_nums.length
      ∧ d.results[j]? = some (numStr (n : Int), m)
      ∧ d.results[0]? = some ("1", m1)
      ∧ m.time = Double.div
          (Double.ofInt (clock (12 * i + 2 * j + 1) - clock (12 * i + 2 * j))) million
      ∧ m.ops_per_sec = Double.div (Double.ofInt iterations) m.time
      ∧ m1.time = Double.div (Double.ofInt (clock (12 * i + 1) - clock (12 * i))) million
      ∧ m.speedup = some (Double.div m1.time m.time) := by
  obtain ⟨d, hd, hname, hres⟩ := run_measurement s iterations clock i T hT
  have hlen1 : (reports (s.run iterations clock)).length = s.tests.length := by
    have := congrArg List.length (reports_names iterations clock s.tests 0 0)
    simpa [TestSuite.run] using this
  have hlen2 : d.results.length = thread_nums.length := by
    have := congrArg List.length (run_results_keys s iterations clock i d hd)
    simpa [thread_nums] using this
  exact ⟨d, _, _, hd, hname, hlen1, hlen2, hres j n hj, hres 0 1 rfl, rfl, rfl, rfl, rfl⟩

/-- C4 at a concrete input: level 4 (position 2) of the second of two workloads -/
theorem C4_run_measurement_invariant_witness :
    ∃ d m m1,
      (reports ((TestSuite.mk [Workload.Insert_Empty, Workload.Insert_IntID]).run 1000
          (fun (k : Nat) => 7 * (k : Int))))[1]? = some d
      ∧ d.name = Workload.Insert_IntID.name
      ∧ (reports ((TestSuite.mk [Workload.Insert_Empty, Workload.Insert_IntID]).run 1000
          (fun (k : Nat) => 7 * (k : Int)))).length
          = (TestSuite.mk [Workload.Insert_Empty, Workload.Insert_IntID]).tests.length
      ∧ d.results.length = thread_nums.length
      ∧ d.results[2]? = some (numStr ((4 : Nat) : Int), m)
      ∧ d.results[0]? = some ("1", m1)
      ∧ m.time = Double.div
          (Double.ofInt ((fun (k : Nat) => 7 * (k : Int)) (12 * 1 + 2 * 2 + 1)
            - (fun (k : Nat) => 7 * (k : Int)) (12 * 1 + 2 * 2))) million
      ∧ m.ops_per_sec = Double.div (Double.ofInt 1000) m.time
      ∧ m1.time = Double.div
          (Double.ofInt ((fun (k : Nat) => 7 * (k : Int)) (12 * 1 + 1)
            - (fun (k : Nat) => 7 * (k : Int)) (12 * 1))) million
      ∧ m.speedup = some (Double.div m1.time m.time) :=
  C4_run_measurement_invariant (TestSuite.mk [Workload.Insert_Empty, Workload.Insert_IntID])
    1000 (fun (k : Nat) => 7 * (k : Int)) 1 Workload.Insert_IntID rfl 2 4 rfl

/-! ## Interleavings of one timed level -/

theorem suffix_mem_last {α : Type} (l X : List α) (a : α) (h : l <:+ X ++ [a])
    (hne : l ≠ []) : a ∈ l := by
  obtain ⟨p, hp⟩ := h
  have h1 : (p ++ l).getLast? = some a := by rw [hp]; exact List.getLast?_concat X
  rw [List.getLast?_append_of_ne_nil p hne] at h1
  exact List.mem_of_getLast?_eq_some h1

theorem Step.mem_of_mainEvent (g : List Step) (e : Event)
    (h : e ∈ g.filterMap Step.mainEvent) : Step.main e ∈ g := by
  rw [List.mem_filterMap] at h
  obtain ⟨s, hs, hse⟩ := h
  cases s with
  | main e' =>
    simp only [Step.mainEvent, Option.some.injEq] at hse
    rw [← hse]; exact hs
  | worker _ _ _ _ _ => simp [Step.mainEvent] at hse

theorem Step.mainEvent_mem (g : List Step) (e : Event) (h : Step.main e ∈ g) :
    e ∈ g.filterMap Step.mainEvent :=
  List.mem_filterMap.mpr ⟨_, h, rfl⟩

theorem timedRun_launch_mem (test : Nat) (T : Workload) (iterations : Int) (N : Nat)
    (start end_ : Int) (test1 : Nat) (t total : Int)
    (h : Event.launch test1 t total ∈ timedRun test T iterations N start end_) :
    ∃ i : Nat, i < N ∧ test1 = test ∧ t = (i : Int) ∧ total = (N : Int) := by
  simp only [timedRun, List.mem_cons, List.mem_append, List.not_mem_nil, or_false] at h
  rcases h with (h | h | h) | h
  · cases h
  · cases h
  · obtain ⟨i, hi, h1 | h1⟩ := launch_subthreads_mem N test _ h
    · simp only [Event.launch.injEq] at h1
      exact ⟨i, hi, h1.1, h1.2.1, h1.2.2⟩
    · cases h1
  · cases h

theorem timedRun_launch (test : Nat) (T : Workload) (iterations : Int) (N : Nat)
    (start end_ : Int) (i : Nat) (hi : i < N) :
    Event.launch test (i : Int) (N : Int) ∈ timedRun test T iterations N start end_ := by
  simp only [timedRun, List.mem_cons, List.mem_append, List.not_mem_nil, or_false]
  refine Or.inl (Or.inr (Or.inr ?_))
  rw [launch_subthreads_default]
  exact List.mem_append_left _ (List.mem_map.mpr ⟨i, List.mem_range.mpr hi, rfl⟩)

theorem admissible_worker (T : Workload) (iterations : Int) (test N : Nat) (start end_ : Int)
    (g : List Step) (hg : Admissible T iterations (timedRun test T iterations N start end_) g)
    (i : Nat) (test1 : Nat) (t total : Int) (o : Origin) (c : Call)
    (hi : g[i]? = some (Step.worker test1 t total o c)) :
    ∃ k : Nat, k < N ∧ test1 = test ∧ t = (k : Int) ∧ total = (N : Int) := by
  have h := (hg.2.2 i _ hi).1
  have h2 := Step.mainEvent_mem g _ (List.mem_of_mem_take h)
  rw [hg.1] at h2
  exact timedRun_launch_mem test T iterations N start end_ test1 t total h2

theorem admissible_projection (T : Workload) (iterations : Int) (test N : Nat)
    (start end_ : Int) (g : List Step)
    (hg : Admissible T iterations (timedRun test T iterations N start end_) g)
    (k : Nat) (hk : k < N) :
    ∃ body : List Call, g.filterMap (Step.workerCall test (k : Int) (N : Int))
      = body.map (fun c => (Origin.body, c)) ++ [(Origin.wrapper, Call.getLastError (k : Int))] := by
  have h := hg.2.1 _ (timedRun_launch test T iterations N start end_ k hk)
  simp only [workerDone, Test.run] at h
  cases hb : T.run iterations (k : Int) (N : Int) with
  | none => simp [hb] at h
  | some body =>
    simp only [hb, Option.bind_eq_bind, Option.some_bind, Option.pure_def,
      Option.some.injEq] at h
    exact ⟨body, h.symm⟩

theorem wrapper_filter_projection (body : List Call) (c : Call) :
    (body.map (fun b => (Origin.body, b)) ++ [(Origin.wrapper, c)]).filter
        (fun p => decide (p.1 = Origin.wrapper))
      = [(Origin.wrapper, c)] := by
  induction body with
  | nil => simp
  | cons b body _ => simp

theorem wrapper_term_body (test N : Nat) (g : List Step) (test1 : Nat) (t1 total1 : Int)
    (c : Call) (k : Nat) :
    (((Step.worker test1 t1 total1 Origin.body c :: g).filterMap
        (Step.workerCall test (k : Int) (N : Int))).filter
        (fun p => decide (p.1 = Origin.wrapper))).length
      = ((g.filterMap (Step.workerCall test (k : Int) (N : Int))).filter
        (fun p => decide (p.1 = Origin.wrapper))).length := by
  by_cases hc : test1 = test ∧ t1 = (k : Int) ∧ total1 = (N : Int)
  · simp [List.filterMap_cons, Step.workerCall, hc]
  · simp [List.filterMap_cons, Step.workerCall, hc]

theorem wrapper_term_wrapper (test N : Nat) (g : List Step) (k0 : Nat) (c : Call) (k : Nat) :
    (((Step.worker test (k0 : Int) (N : Int) Origin.wrapper c :: g).filterMap
        (Step.workerCall test (k : Int) (N : Int))).filter
        (fun p => decide (p.1 = Origin.wrapper))).length
      = ((g.filterMap (Step.workerCall test (k : Int) (N : Int))).filter
        (fun p => decide (p.1 = Origin.wrapper))).length + (if k0 = k then 1 else 0) := by
  by_cases hc : k0 = k
  · simp [List.filterMap_cons, Step.workerCall, hc]
  · have hc1 : ¬ ((k0 : Int) = (k : Int)) := by exact_mod_cast hc
    simp [List.filterMap_cons, Step.workerCall, hc, hc1]

theorem wrapper_count_sum (test N : Nat) (g : List Step)
    (h : ∀ s ∈ g, s.isWrapper = true →
      ∃ k : Nat, k < N ∧ ∃ c, s = Step.worker test (k : Int) (N : Int) Origin.wrapper c) :
    (g.filter Step.isWrapper).length
      = Finset.sum (Finset.range N) (fun k =>
          ((g.filterMap (Step.workerCall test (k : Int) (N : Int))).filter
            (fun p => decide (p.1 = Origin.wrapper))).length) := by
  induction g with
  | nil => simp
  | cons s g ih =>
    have ih1 := ih (fun s hs => h s (List.mem_cons_of_mem _ hs))
    cases s with
    | main e => simpa [Step.isWrapper, Step.workerCall] using ih1
    | worker test1 t1 total1 o c =>
      cases o with
      | body =>
        simp only [wrapper_term_body]
        simpa [Step.isWrapper] using ih1
      | wrapper =>
        obtain ⟨k0, hk0, c0, hs⟩ := h _ (List.mem_cons_self _ _) rfl
        simp only [Step.worker.injEq, true_and] at hs
        obtain ⟨rfl, rfl, rfl, rfl⟩ := hs
        simp only [wrapper_term_wrapper, Finset.sum_add_distrib, Finset.sum_ite_eq,
          Finset.mem_range, hk0, if_true]
        simp [Step.isWrapper, ih1]

theorem admissible_wrapper_step (T : Workload) (iterations : Int) (test N : Nat)
    (start end_ : Int) (g : List Step)
    (hg : Admissible T iterations (timedRun test T iterations N start end_) g)
    (i : Nat) (s : Step) (hi : g[i]? = some s) (hw : s.isWrapper = true) :
    ∃ k : Nat, k < N
      ∧ s = Step.worker test (k : Int) (N : Int) Origin.wrapper (Call.getLastError (k : Int)) := by
  cases s with
  | main e => simp [Step.isWrapper] at hw
  | worker test1 t1 total1 o c =>
    cases o with
    | body => simp [Step.isWrapper] at hw
    | wrapper =>
      obtain ⟨k, hk, rfl, rfl, rfl⟩ := admissible_worker T iterations test N start end_ g hg i
        test1 t1 total1 Origin.wrapper c hi
      obtain ⟨body, hproj⟩ := admissible_projection T iterations test1 N start end_ g hg k hk
      have hmem : (Origin.wrapper, c)
          ∈ g.filterMap (Step.workerCall test1 (k : Int) (N : Int)) :=
        List.mem_filterMap.mpr ⟨_, List.getElem?_mem hi, by simp [Step.workerCall]⟩
      rw [hproj] at hmem
      simp only [List.mem_append, List.mem_map, List.mem_singleton, Prod.mk.injEq] at hmem
      rcases hmem with ⟨b, -, hb, -⟩ | ⟨-, hc⟩
      · cases hb
      · exact ⟨k, hk, by rw [hc]⟩

theorem admissible_wrapper_count (T : Workload) (iterations : Int) (test N : Nat)
    (start end_ : Int) (g : List Step)
    (hg : Admissible T iterations (timedRun test T iterations N start end_) g) :
    (g.filter Step.isWrapper).length = N := by
  rw [wrapper_count_sum test N g]
  · have hterm : ∀ k ∈ Finset.range N,
        ((g.filterMap (Step.workerCall test (k : Int) (N : Int))).filter
          (fun p => decide (p.1 = Origin.wrapper))).length = 1 := by
      intro k hk
      obtain ⟨body, hproj⟩ := admissible_projection T iterations test N start end_ g hg k
        (Finset.mem_range.mp hk)
      rw [hproj, wrapper_filter_projection]
      rfl
    rw [Finset.sum_congr rfl hterm]
    simp
  · intro s hs hw
    obtain ⟨i, hi⟩ := List.mem_iff_getElem?.mp hs
    obtain ⟨k, hk, hsk⟩ := admissible_wrapper_step T iterations test N start end_ g hg i s hi hw
    exact ⟨k, hk, _, hsk⟩

theorem sampleLevel2_admissible :
    Admissible Workload.Insert_Empty 0 (timedRun 0 Workload.Insert_Empty 0 2 0 0) sampleLevel2 := by
  refine ⟨by decide, ?_, ?_⟩
  · intro e he
    have hmain : timedRun 0 Workload.Insert_Empty 0 2 0 0
        = [Event.reset 0 2 (Workload.Insert_Empty.reset 0), Event.start_time 0 2 0,
            Event.launch 0 0 2, Event.launch 0 1 2, Event.join 0 1 2, Event.join 0 0 2,
            Event.end_time 0 2 0] := by decide
    rw [hmain] at he
    simp only [List.mem_cons, List.mem_singleton, List.not_mem_nil, or_false] at he
    rcases he with rfl | rfl | rfl | rfl | rfl | rfl | rfl <;> simp only [workerDone] <;> decide
  · intro i s hi
    have hlen : i < sampleLevel2.length := by
      by_contra hc
      rw [List.getElem?_eq_none (by omega)] at hi
      cases hi
    have hlen9 : sampleLevel2.length = 9 := rfl
    rw [hlen9] at hlen
    interval_cases i <;> simp only [sampleLevel2, List.getElem?_cons_zero,
      List.getElem?_cons_succ, Option.some.injEq] at hi <;> subst hi <;>
      simp only [inOrder] <;> decide

theorem count_projection (g : List Step) (test : Nat) (t total : Int) (o : Origin) (c : Call) :
    List.count (Step.worker test t total o c) g
      = List.count (o, c) (g.filterMap (Step.workerCall test t total)) := by
  induction g with
  | nil => simp
  | cons s g ih =>
    cases s with
    | main e => simp [List.count_cons, List.filterMap_cons, Step.workerCall, ih]
    | worker test1 t1 total1 o1 c1 =>
      by_cases hc : test1 = test ∧ t1 = t ∧ total1 = total
      · obtain ⟨rfl, rfl, rfl⟩ := hc
        simp [List.count_cons, List.filterMap_cons, Step.workerCall, ih]
      · have hne : ¬ (test1 = test ∧ t1 = t ∧ total1 = total ∧ o1 = o ∧ c1 = c) :=
          fun h => hc ⟨h.1, h.2.1, h.2.2.1⟩
        simp [List.count_cons, List.filterMap_cons, Step.workerCall, ih, hc, hne]

theorem count_wrapper_projection (body : List Call) (c : Call) :
    List.count (Origin.wrapper, c)
      (body.map (fun b => (Origin.body, b)) ++ [(Origin.wrapper, c)]) = 1 := by
  induction body with
  | nil => simp
  | cons b body ih => simpa [List.count_cons] using ih

theorem admissible_end_after (T : Workload) (iterations : Int) (test N : Nat)
    (start end_ : Int) (g : List Step)
    (hg : Admissible T iterations (timedRun test T iterations N start end_) g)
    (i : Nat) (e : Event) (he : Step.main e ∈ g.drop (i + 1)) :
    Step.main (Event.end_time test N end_) ∈ g.drop (i + 1) := by
  have hsuf : (g.drop (i + 1)).filterMap Step.mainEvent
      <:+ (Event.reset test N (T.reset iterations) :: Event.start_time test N start
        :: launch_subthreads N test (-1)) ++ [Event.end_time test N end_] := by
    have := List.IsSuffix.filterMap Step.mainEvent (List.drop_suffix (i + 1) g)
    rw [hg.1] at this
    exact this
  have hne : (g.drop (i + 1)).filterMap Step.mainEvent ≠ [] :=
    List.ne_nil_of_mem (Step.mainEvent_mem _ e he)
  exact Step.mem_of_mainEvent _ _ (suffix_mem_last _ _ _ hsuf hne)

/-- C7 fails as stated: in the timed run of `Insert::Empty` at level 2 the
`getLastError` calls issued outside the workload bodies are two, not one: in
the sample interleaving worker 1 issues one on `conn[1]` and worker 0 one on
`conn[0]`, both before the joins; and no interleaving that the thread library
allows for this timed run has exactly one such call. -/
theorem C7_single_drain_counterexample :
    Admissible Workload.Insert_Empty 0 (timedRun 0 Workload.Insert_Empty 0 2 0 0) sampleLevel2
      ∧ sampleLevel2.filter Step.isWrapper
          = [Step.worker 0 1 2 Origin.wrapper (Call.getLastError 1),
              Step.worker 0 0 2 Origin.wrapper (Call.getLastError 0)]
      ∧ (sampleLevel2.filter Step.isWrapper).length ≠ 1
      ∧ ¬ ∃ g, Admissible Workload.Insert_Empty 0
            (timedRun 0 Workload.Insert_Empty 0 2 0 0) g
          ∧ (g.filter Step.isWrapper).length = 1 := by
  refine ⟨sampleLevel2_admissible, by decide, by decide, ?_⟩
  rintro ⟨g, hg, h1⟩
  have h2 := admissible_wrapper_count _ _ _ _ _ _ g hg
  omega

/-- C7 as amended: in every interleaving of one timed run at level `N`, the
`getLastError` calls issued outside the workload bodies are exactly `N`, one
by each worker `k` on its own connection `conn[k]`; each is issued before
that worker is joined and before the end timestamp is read. -/
theorem C7_drain_once_per_worker (T : Workload) (iterations : Int) (test N : Nat)
    (start end_ : Int) (g : List Step)
    (hg : Admissible T iterations (timedRun test T iterations N start end_) g) :
    (g.filter Step.isWrapper).length = N
      ∧ (∀ k : Nat, k < N →
          List.count (Step.worker test (k : Int) (N : Int) Origin.wrapper
            (Call.getLastError (k : Int))) g = 1)
      ∧ ∀ i s, g[i]? = some s → s.isWrapper = true →
          ∃ k : Nat, k < N
            ∧ s = Step.worker test (k : Int) (N : Int) Origin.wrapper
                (Call.getLastError (k : Int))
            ∧ Step.main (Event.join test (k : Int) (N : Int)) ∈ g.drop (i + 1)
            ∧ Step.main (Event.end_time test N end_) ∈ g.drop (i + 1) := by
  refine ⟨admissible_wrapper_count T iterations test N start end_ g hg, ?_, ?_⟩
  · intro k hk
    obtain ⟨body, hproj⟩ := admissible_projection T iterations test N start end_ g hg k hk
    rw [count_projection, hproj, count_wrapper_projection]
  · intro i s hi hw
    obtain ⟨k, hk, rfl⟩ := admissible_wrapper_step T iterations test N start end_ g hg i s hi hw
    have hjoin := (hg.2.2 i _ hi).2
    exact ⟨k, hk, rfl, hjoin, admissible_end_after T iterations test N start end_ g hg i _ hjoin⟩

/-- C7 as amended, at a concrete input: the sample interleaving of level 2 -/
theorem C7_drain_once_per_worker_witness :
    (sampleLevel2.filter Step.isWrapper).length = 2
      ∧ (∀ k : Nat, k < 2 →
          List.count (Step.worker 0 (k : Int) ((2 : Nat) : Int) Origin.wrapper
            (Call.getLastError (k : Int))) sampleLevel2 = 1)
      ∧ ∀ i s, sampleLevel2[i]? = some s → s.isWrapper = true →
          ∃ k : Nat, k < 2
            ∧ s = Step.worker 0 (k : Int) ((2 : Nat) : Int) Origin.wrapper
                (Call.getLastError (k : Int))
            ∧ Step.main (Event.join 0 (k : Int) ((2 : Nat) : Int)) ∈ sampleLevel2.drop (i + 1)
            ∧ Step.main (Event.end_time 0 2 0) ∈ sampleLevel2.drop (i + 1) :=
  C7_drain_once_per_worker Workload.Insert_Empty 0 0 2 0 0 sampleLevel2 sampleLevel2_admissible

/-! ## Partition of the ids among the workers -/

theorem idMatches_int (v x : Int) : idMatches [("_id", Val.int v)] x = decide (x = v) := by
  simp [idMatches, List.lookup]

theorem idMatches_range (lo hi x : Int) :
    idMatches (rangeDoc "_id" lo hi) x = (decide (lo ≤ x) && decide (x < hi)) := by
  simp [idMatches, rangeDoc, List.lookup]

theorem forLoop_any (bound : Int) (body : Int → List Call) (p : Call → Bool) :
    (forLoop bound body).any p = true ↔ ∃ i : Nat, (i : Int) < bound ∧ (body (i : Int)).any p = true := by
  simp only [forLoop, List.any_eq_true, List.mem_flatMap, List.mem_range]
  constructor
  · rintro ⟨c, ⟨i, hi, hc⟩, hp⟩
    exact ⟨i, by omega, c, hc, hp⟩
  · rintro ⟨i, hi, c, hc, hp⟩
    exact ⟨c, ⟨i, by omega, hc⟩, hp⟩

theorem range_iff_offset (base c x : Int) :
    (∃ i : Nat, (i : Int) < c ∧ x = base + (i : Int)) ↔ base ≤ x ∧ x < base + c := by
  constructor
  · rintro ⟨i, hi, rfl⟩
    omega
  · rintro ⟨h1, h2⟩
    exact ⟨(x - base).toNat, by omega, by omega⟩

theorem run_IntID (iterations t n : Int) (hn : n ≠ 0) :
    Workload.Insert_IntID.run iterations t n
      = some (forLoop (iterations.tdiv n) fun i =>
          [Call.insert t ns [("_id", Val.int (t * iterations.tdiv n + i))]]) := by
  simp [Workload.run, Insert.IntID.run, cdiv, hn]

theorem run_IntIDFindOne (iterations t n : Int) (hn : n ≠ 0) :
    Workload.Queries_IntIDFindOne.run iterations t n
      = some (forLoop (iterations.tdiv n) fun i =>
          [Call.findOne t ns [("_id", Val.int (t * iterations.tdiv n + i))]]) := by
  simp [Workload.run, Queries.IntIDFindOne.run, cdiv, hn]

theorem run_IntIDRange (iterations t n : Int) (hn : n ≠ 0) :
    Workload.Queries_IntIDRange.run iterations t n
      = some [Call.query t ns
          (rangeDoc "_id" (iterations.tdiv n * t) (iterations.tdiv n * (t + 1))) 0 0] := by
  simp [Workload.run, Queries.IntIDRange.run, cdiv, hn]

theorem usesId_IntID (iterations t n x : Int) (hn : n ≠ 0) :
    usesId Workload.Insert_IntID iterations t n x = true
      ↔ t * iterations.tdiv n ≤ x ∧ x < t * iterations.tdiv n + iterations.tdiv n := by
  rw [← range_iff_offset, usesId, run_IntID iterations t n hn]
  simp only [forLoop_any]
  simp [Call.namesId, idMatches_int]

theorem usesId_IntIDFindOne (iterations t n x : Int) (hn : n ≠ 0) :
    usesId Workload.Queries_IntIDFindOne iterations t n x = true
      ↔ t * iterations.tdiv n ≤ x ∧ x < t * iterations.tdiv n + iterations.tdiv n := by
  rw [← range_iff_offset, usesId, run_IntIDFindOne iterations t n hn]
  simp only [forLoop_any]
  simp [Call.namesId, idMatches_int]

theorem usesId_IntIDRange (iterations t n x : Int) (hn : n ≠ 0) :
    usesId Workload.Queries_IntIDRange iterations t n x = true
      ↔ t * iterations.tdiv n ≤ x ∧ x < t * iterations.tdiv n + iterations.tdiv n := by
  have e1 : iterations.tdiv n * t = t * iterations.tdiv n := by ring
  have e2 : iterations.tdiv n * (t + 1) = t * iterations.tdiv n + iterations.tdiv n := by ring
  rw [usesId, run_IntIDRange iterations t n hn]
  simp [Call.namesId, idMatches_range, e1, e2]

theorem resetInsertsId_queries (iterations x : Int) :
    (resetInsertsId Workload.Queries_IntIDFindOne iterations x = true ↔ 0 ≤ x ∧ x < iterations)
      ∧ (resetInsertsId Workload.Queries_IntIDRange iterations x = true
          ↔ 0 ≤ x ∧ x < iterations) := by
  have h := range_iff_offset 0 iterations x
  simp only [zero_add] at h
  constructor <;>
  · rw [← h]
    simp only [resetInsertsId, Workload.reset, Queries.IntIDFindOne.reset,
      Queries.IntIDRange.reset, List.any_append, Bool.or_eq_true, forLoop_any]
    simp [clearDB, Call.insertsId, idMatches_int]

theorem resetInsertsId_IntID (iterations x : Int) :
    resetInsertsId Workload.Insert_IntID iterations x = false := by
  simp [resetInsertsId, Workload.reset, Insert.Base.reset, clearDB, Call.insertsId]

theorem share_facts (iterations : Int) (n : Nat) (h0 : 0 ≤ iterations) (hn : 1 ≤ n) :
    0 ≤ iterations.tdiv (n : Int)
      ∧ (n : Int) * iterations.tdiv (n : Int) ≤ iterations
      ∧ iterations - (n : Int) * iterations.tdiv (n : Int) < (n : Int) := by
  have hn0 : (0 : Int) < (n : Int) := by omega
  rw [Int.tdiv_eq_ediv h0 hn0.le]
  have h1 := Int.ediv_add_emod iterations (n : Int)
  have h2 := Int.emod_nonneg iterations hn0.ne'
  have h3 := Int.emod_lt_of_pos iterations hn0
  refine ⟨Int.ediv_nonneg h0 hn0.le, by omega, by omega⟩

theorem ranges_disjoint (c : Int) (hc : 0 ≤ c) (t1 t2 : Nat) (hne : t1 ≠ t2) (x : Int)
    (h1 : (t1 : Int) * c ≤ x ∧ x < (t1 : Int) * c + c)
    (h2 : (t2 : Int) * c ≤ x ∧ x < (t2 : Int) * c + c) : False := by
  rcases Nat.lt_or_gt_of_ne hne with h | h
  · have : ((t1 : Int) + 1) * c ≤ (t2 : Int) * c :=
      mul_le_mul_of_nonneg_right (by omega) hc
    linarith [h1.2, h2.1]
  · have : ((t2 : Int) + 1) * c ≤ (t1 : Int) * c :=
      mul_le_mul_of_nonneg_right (by omega) hc
    linarith [h2.2, h1.1]

theorem range_inside (c : Int) (hc : 0 ≤ c) (n t : Nat) (ht : t < n) (x : Int)
    (h : (t : Int) * c ≤ x ∧ x < (t : Int) * c + c) :
    0 ≤ x ∧ x < (n : Int) * c := by
  have h1 : (0 : Int) ≤ (t : Int) * c := mul_nonneg (by omega) hc
  have h2 : ((t : Int) + 1) * c ≤ (n : Int) * c := mul_le_mul_of_nonneg_right (by omega) hc
  constructor
  · linarith [h.1]
  · linarith [h.2]

theorem range_cover (c : Int) (n : Nat) (x : Int) (h0 : 0 ≤ x) (h1 : x < (n : Int) * c)
    (hc : 0 ≤ c) :
    ∃ t : Nat, t < n ∧ (t : Int) * c ≤ x ∧ x < (t : Int) * c + c := by
  have hcpos : 0 < c := by
    rcases hc.lt_or_eq with h | h
    · exact h
    · rw [← h] at h1; simp at h1; omega
  refine ⟨(x / c).toNat, ?_, ?_, ?_⟩
  · have hq : x / c < (n : Int) := Int.ediv_lt_of_lt_mul hcpos h1
    have hq0 : 0 ≤ x / c := Int.ediv_nonneg h0 hc
    omega
  · rw [Int.toNat_of_nonneg (Int.ediv_nonneg h0 hc)]
    exact Int.ediv_mul_le x hcpos.ne'
  · rw [Int.toNat_of_nonneg (Int.ediv_nonneg h0 hc)]
    have := Int.lt_ediv_add_one_mul_self x hcpos
    linarith

theorem usesId_partitioned (T : Workload)
    (hT : T = Workload.Insert_IntID ∨ T = Workload.Queries_IntIDFindOne
      ∨ T = Workload.Queries_IntIDRange)
    (iterations t n x : Int) (hn : n ≠ 0) :
    usesId T iterations t n x = true
      ↔ t * iterations.tdiv n ≤ x ∧ x < t * iterations.tdiv n + iterations.tdiv n := by
  rcases hT with rfl | rfl | rfl
  · exact usesId_IntID iterations t n x hn
  · exact usesId_IntIDFindOne iterations t n x hn
  · exact usesId_IntIDRange iterations t n x hn

theorem run_partitioned (T : Workload)
    (hT : T = Workload.Insert_IntID ∨ T = Workload.Queries_IntIDFindOne
      ∨ T = Workload.Queries_IntIDRange)
    (iterations t n : Int) (hn : n ≠ 0) :
    ∃ calls, T.run iterations t n = some calls
      ∧ (T ≠ Workload.Queries_IntIDRange → calls.length = (iterations.tdiv n).toNat)
      ∧ (T = Workload.Queries_IntIDRange → calls.length = 1) := by
  rcases hT with rfl | rfl | rfl
  · exact ⟨_, run_IntID iterations t n hn, fun _ => forLoop_singleton_length _ _,
      fun h => by cases h⟩
  · exact ⟨_, run_IntIDFindOne iterations t n hn, fun _ => forLoop_singleton_length _ _,
      fun h => by cases h⟩
  · exact ⟨_, run_IntIDRange iterations t n hn, fun h => absurd rfl h, fun _ => rfl⟩

/-- C11 fails as stated: worker 0 of `Insert::IntID` with `iterations = 1` and
`n = 1` uses the id 0, which lies in `[0, iterations)`, but the `reset()` of
`Insert::IntID` is `clearDB()` alone and inserts no document; for this
workload `[0, iterations)` is not the set of ids that `reset()` inserts. -/
theorem C11_reset_inserts_no_ids_counterexample :
    usesId Workload.Insert_IntID 1 0 1 0 = true
      ∧ ((0 : Int) ≤ 0 ∧ (0 : Int) < 1)
      ∧ resetInsertsId Workload.Insert_IntID 1 0 = false
      ∧ Workload.Insert_IntID.reset 1 = [Call.dropDatabase 0 db, Call.getLastError 0] := by
  decide

/-- C11 as amended: for every `iterations ≥ 0` and every `n ≥ 1`, with
`c = iterations / n` (truncating), in each of `Insert::IntID`,
`Queries::IntIDFindOne` and `Queries::IntIDRange` worker `t` runs without
failing and names exactly the ids of `[t*c, t*c + c)` (one call per id, or
the one range query of `Queries::IntIDRange`). For the workers
`t = 0..n-1` these ranges are pairwise disjoint, lie inside
`[0, iterations)` and together cover exactly `[0, n*c)`, with
`n*c ≤ iterations` and `iterations - n*c < n`. The ids of `[0, iterations)`
are the ids that `reset()` inserts for the two `Queries` workloads; the
`reset()` of `Insert::IntID` inserts none. -/
theorem C11_partition_by_integer_division (T : Workload)
    (hT : T = Workload.Insert_IntID ∨ T = Workload.Queries_IntIDFindOne
      ∨ T = Workload.Queries_IntIDRange)
    (iterations : Int) (n : Nat) (h0 : 0 ≤ iterations) (hn : 1 ≤ n) :
    (∀ (t : Nat) (x : Int), usesId T iterations t n x = true
        ↔ (t : Int) * iterations.tdiv n ≤ x
          ∧ x < (t : Int) * iterations.tdiv n + iterations.tdiv n)
      ∧ (∀ t : Nat, t < n → ∃ calls, T.run iterations t n = some calls
          ∧ (T ≠ Workload.Queries_IntIDRange → calls.length = (iterations.tdiv n).toNat)
          ∧ (T = Workload.Queries_IntIDRange → calls.length = 1))
      ∧ (∀ (t1 t2 : Nat) (x : Int), t1 < n → t2 < n → t1 ≠ t2 →
          ¬ (usesId T iterations t1 n x = true ∧ usesId T iterations t2 n x = true))
      ∧ (∀ (t : Nat) (x : Int), t < n → usesId T iterations t n x = true →
          0 ≤ x ∧ x < iterations)
      ∧ (∀ x : Int, (0 ≤ x ∧ x < (n : Int) * iterations.tdiv n)
          ↔ ∃ t : Nat, t < n ∧ usesId T iterations t n x = true)
      ∧ (n : Int) * iterations.tdiv n ≤ iterations
      ∧ iterations - (n : Int) * iterations.tdiv n < (n : Int)
      ∧ (T ≠ Workload.Insert_IntID →
          ∀ x : Int, resetInsertsId T iterations x = true ↔ 0 ≤ x ∧ x < iterations)
      ∧ (T = Workload.Insert_IntID → ∀ x : Int, resetInsertsId T iterations x = false) := by
  have hn0 : (n : Int) ≠ 0 := by omega
  obtain ⟨hc, hle, hrem⟩ := share_facts iterations n h0 hn
  have huse := fun (t : Nat) (x : Int) => usesId_partitioned T hT iterations t n x hn0
  refine ⟨huse, ?_, ?_, ?_, ?_, hle, hrem, ?_, ?_⟩
  · intro t _
    exact run_partitioned T hT iterations t n hn0
  · rintro t1 t2 x _ _ hne ⟨h1, h2⟩
    exact ranges_disjoint _ hc t1 t2 hne x ((huse t1 x).mp h1) ((huse t2 x).mp h2)
  · intro t x ht h
    have := range_inside _ hc n t ht x ((huse t x).mp h)
    exact ⟨this.1, lt_of_lt_of_le this.2 hle⟩
  · intro x
    constructor
    · rintro ⟨hx0, hx1⟩
      obtain ⟨t, ht, hr⟩ := range_cover _ n x hx0 hx1 hc
      exact ⟨t, ht, (huse t x).mpr hr⟩
    · rintro ⟨t, ht, h⟩
      exact range_inside _ hc n t ht x ((huse t x).mp h)
  · intro hne x
    rcases hT with rfl | rfl | rfl
    · exact absurd rfl hne
    · exact (resetInsertsId_queries iterations x).1
    · exact (resetInsertsId_queries iterations x).2
  · rintro rfl x
    exact resetInsertsId_IntID iterations x

/-- C11 as amended, at a concrete input: `Queries::IntIDRange` with 10
iterations and 4 workers -/
theorem C11_partition_by_integer_division_witness :
    (∀ (t : Nat) (x : Int),
        usesId Workload.Queries_IntIDRange 10 t ((4 : Nat) : Int) x = true
        ↔ (t : Int) * (10 : Int).tdiv ((4 : Nat) : Int) ≤ x
          ∧ x < (t : Int) * (10 : Int).tdiv ((4 : Nat) : Int)
              + (10 : Int).tdiv ((4 : Nat) : Int))
      ∧ (∀ t : Nat, t < 4 →
          ∃ calls, Workload.Queries_IntIDRange.run 10 t ((4 : Nat) : Int) = some calls
          ∧ (Workload.Queries_IntIDRange ≠ Workload.Queries_IntIDRange →
              calls.length = ((10 : Int).tdiv ((4 : Nat) : Int)).toNat)
          ∧ (Workload.Queries_IntIDRange = Workload.Queries_IntIDRange → calls.length = 1))
      ∧ (∀ (t1 t2 : Nat) (x : Int), t1 < 4 → t2 < 4 → t1 ≠ t2 →
          ¬ (usesId Workload.Queries_IntIDRange 10 t1 ((4 : Nat) : Int) x = true
            ∧ usesId Workload.Queries_IntIDRange 10 t2 ((4 : Nat) : Int) x = true))
      ∧ (∀ (t : Nat) (x : Int), t < 4 →
          usesId Workload.Queries_IntIDRange 10 t ((4 : Nat) : Int) x = true →
          0 ≤ x ∧ x < 10)
      ∧ (∀ x : Int, (0 ≤ x ∧ x < ((4 : Nat) : Int) * (10 : Int).tdiv ((4 : Nat) : Int))
          ↔ ∃ t : Nat, t < 4
            ∧ usesId Workload.Queries_IntIDRange 10 t ((4 : Nat) : Int) x = true)
      ∧ ((4 : Nat) : Int) * (10 : Int).tdiv ((4 : Nat) : Int) ≤ 10
      ∧ 10 - ((4 : Nat) : Int) * (10 : Int).tdiv ((4 : Nat) : Int) < ((4 : Nat) : Int)
      ∧ (Workload.Queries_IntIDRange ≠ Workload.Insert_IntID →
          ∀ x : Int, resetInsertsId Workload.Queries_IntIDRange 10 x = true ↔ 0 ≤ x ∧ x < 10)
      ∧ (Workload.Queries_IntIDRange = Workload.Insert_IntID →
          ∀ x : Int, resetInsertsId Workload.Queries_IntIDRange 10 x = false) :=
  C11_partition_by_integer_division Workload.Queries_IntIDRange (Or.inr (Or.inr rfl)) 10 4
    (by decide) (by decide)

end Benchmark
